import Mathlib

/-!
Shallow embedding of the endershare replicated-vault core (Go sources under
internal/crypto, internal/storage, internal/database, internal/core and
internal/p2p) together with proofs about the embedded operations.

Conventions of the embedding:
* a Go byte slice is a list of naturals (each < 256 in practice);
* cryptographic primitives that live outside this repository (BLAKE3,
  ed25519, scrypt, AES-GCM, JSON marshalling, libp2p peer-id printing) are
  taken as function parameters, so every theorem quantifies over them
  unless the property under test pins a concrete instance;
* Go functions that can panic are modelled with Option or with an explicit
  panicked outcome;
* the sqlite tables (node, data, peers, updates) are modelled as record
  fields of a NodeState value, and the network is an explicit Env record
  holding the responses the remote peer would send.
-/

namespace Endershare

/-- Byte strings: a Go byte slice is modelled as a list of naturals. -/
abbrev Bytes := List Nat

/-- The all-zero 32-byte hash used for empty buckets and fresh nodes. -/
def zeros32 : Bytes := List.replicate 32 0

/-- bytes.Compare from the Go standard library: lexicographic comparison,
with a proper suffix making the longer slice greater. -/
def bcmp : Bytes → Bytes → Ordering
  | [], [] => .eq
  | [], _ :: _ => .lt
  | _ :: _, [] => .gt
  | a :: as, b :: bs =>
    if a < b then .lt else if b < a then .gt else bcmp as bs

theorem bcmp_eq_iff (a b : Bytes) : bcmp a b = .eq ↔ a = b := by
  induction a generalizing b with
  | nil => cases b <;> simp [bcmp]
  | cons x as ih =>
    cases b with
    | nil => simp [bcmp]
    | cons y bs =>
      by_cases h1 : x < y
      · simp [bcmp, h1]
        omega
      · by_cases h2 : y < x
        · simp [bcmp, h1, h2]
          omega
        · have hxy : x = y := by omega
          simp [bcmp, h1, h2, hxy, ih]

theorem bcmp_gt_iff (a b : Bytes) : bcmp a b = .gt ↔ bcmp b a = .lt := by
  induction a generalizing b with
  | nil => cases b <;> simp [bcmp]
  | cons x as ih =>
    cases b with
    | nil => simp [bcmp]
    | cons y bs =>
      by_cases h1 : x < y
      · have h2 : ¬ y < x := by omega
        simp [bcmp, h1, h2]
      · by_cases h2 : y < x
        · simp [bcmp, h1, h2]
        · simp [bcmp, h1, h2, ih]

/-- The order in which the Merkle tree keeps bucket contents: a is allowed
to precede b when the byte comparison does not report a greater. -/
def ble (a b : Bytes) : Prop := bcmp a b ≠ .gt

instance decBle (a b : Bytes) : Decidable (ble a b) := by
  unfold ble
  infer_instance

theorem ble_total (a b : Bytes) : ble a b ∨ ble b a := by
  by_cases h : bcmp a b = .gt
  · right
    have := (bcmp_gt_iff a b).mp h
    simp [ble, this]
  · left
    exact h

theorem ble_antisymm {a b : Bytes} (h1 : ble a b) (h2 : ble b a) : a = b := by
  have hne : bcmp a b ≠ .lt := by
    intro hlt
    exact h2 ((bcmp_gt_iff b a).mpr hlt)
  cases hord : bcmp a b with
  | lt => exact absurd hord hne
  | gt => exact absurd hord h1
  | eq => exact (bcmp_eq_iff a b).mp hord

theorem ble_trans {a b c : Bytes} (h1 : ble a b) (h2 : ble b c) : ble a c := by
  induction a generalizing b c with
  | nil =>
    cases c with
    | nil => simp [ble, bcmp]
    | cons z cs => simp [ble, bcmp]
  | cons x as ih =>
    cases b with
    | nil => exact absurd rfl h1
    | cons y bs =>
      cases c with
      | nil => exact absurd rfl h2
      | cons z cs =>
        simp only [ble, bcmp] at h1 h2 ⊢
        by_cases hyx : y < x
        · exfalso
          apply h1
          have hxy : ¬ x < y := by omega
          simp [hxy, hyx]
        · by_cases hzy : z < y
          · exfalso
            apply h2
            have hyz : ¬ y < z := by omega
            simp [hyz, hzy]
          · by_cases hxz : x < z
            · simp [hxz]
            · have hzx : ¬ z < x := by omega
              have hxy : ¬ x < y := by omega
              have hyz : ¬ y < z := by omega
              have hxyeq : x = y := by omega
              have hyzeq : y = z := by omega
              simp only [hxy, hyx, if_false] at h1
              simp only [hyz, hzy, if_false] at h2
              simp only [hxz, hzx, if_false]
              exact ih (by simpa using h1) (by simpa using h2)

instance : IsAntisymm Bytes ble := ⟨fun _ _ h1 h2 => ble_antisymm h1 h2⟩

instance : IsTrans Bytes ble := ⟨fun _ _ _ h1 h2 => ble_trans h1 h2⟩

instance : IsTotal Bytes ble := ⟨ble_total⟩

/-- One step of the insertion sort from merkletree.go sortHashes: the inner
while loop bubbles the new element left past every strictly greater element,
so it is inserted before the first strictly greater element of the sorted
prefix. -/
def insertHash (h : Bytes) : List Bytes → List Bytes
  | [] => [h]
  | x :: xs => if bcmp x h = .gt then h :: x :: xs else x :: insertHash h xs

/-- sortHashes from merkletree.go: insertion sort of a hash list by byte
value (processing elements left to right, each inserted into the sorted
prefix). -/
def sortHashes (l : List Bytes) : List Bytes :=
  l.foldl (fun acc x => insertHash x acc) []

theorem insertHash_perm (h : Bytes) (l : List Bytes) :
    List.Perm (insertHash h l) (h :: l) := by
  induction l with
  | nil => simp [insertHash]
  | cons x xs ih =>
    by_cases hc : bcmp x h = .gt
    · simp [insertHash, hc]
    · simp only [insertHash, hc, if_false]
      exact List.Perm.trans (ih.cons x) (List.Perm.swap h x xs)

theorem insertHash_sorted (h : Bytes) (l : List Bytes)
    (hs : l.Sorted ble) : (insertHash h l).Sorted ble := by
  induction l with
  | nil => simp [insertHash]
  | cons x xs ih =>
    rw [List.sorted_cons] at hs
    by_cases hc : bcmp x h = .gt
    · simp only [insertHash, hc, if_true]
      rw [List.sorted_cons]
      refine ⟨?_, ?_⟩
      · intro b hb
        rcases List.mem_cons.mp hb with hb | hb
        · subst hb
          have hlt := (bcmp_gt_iff _ h).mp hc
          simp [ble, hlt]
        · exact ble_trans (by simp [ble, (bcmp_gt_iff x h).mp hc]) (hs.1 b hb)
      · rw [List.sorted_cons]
        exact hs
    · simp only [insertHash, hc, if_false]
      rw [List.sorted_cons]
      refine ⟨?_, ih hs.2⟩
      intro b hb
      have hmem : b ∈ h :: xs := (insertHash_perm h xs).subset hb
      rcases List.mem_cons.mp hmem with hm | hm
      · subst hm
        exact hc
      · exact hs.1 b hm

theorem sortHashes_aux_perm (l : List Bytes) (acc : List Bytes) :
    List.Perm (l.foldl (fun acc x => insertHash x acc) acc) (acc ++ l) := by
  induction l generalizing acc with
  | nil => simp
  | cons x xs ih =>
    simp only [List.foldl_cons]
    refine List.Perm.trans (ih (insertHash x acc)) ?_
    refine List.Perm.trans ((insertHash_perm x acc).append_right xs) ?_
    simpa using List.Perm.symm List.perm_middle

theorem sortHashes_perm (l : List Bytes) : List.Perm (sortHashes l) l := by
  simpa [sortHashes] using sortHashes_aux_perm l []

theorem sortHashes_aux_sorted (l : List Bytes) (acc : List Bytes)
    (hs : acc.Sorted ble) :
    (l.foldl (fun acc x => insertHash x acc) acc).Sorted ble := by
  induction l generalizing acc with
  | nil => simpa
  | cons x xs ih =>
    simp only [List.foldl_cons]
    exact ih _ (insertHash_sorted x acc hs)

theorem sortHashes_sorted (l : List Bytes) : (sortHashes l).Sorted ble := by
  simpa [sortHashes] using sortHashes_aux_sorted l [] (by simp)

/-- Two hash multisets that are permutations of each other sort to the same
list: the sort order is total and antisymmetric. -/
theorem sortHashes_eq_of_perm {l1 l2 : List Bytes} (hp : List.Perm l1 l2) :
    sortHashes l1 = sortHashes l2 :=
  List.eq_of_perm_of_sorted
    (((sortHashes_perm l1).trans hp).trans (sortHashes_perm l2).symm)
    (sortHashes_sorted l1) (sortHashes_sorted l2)

/-- big.Int.SetBytes: interpret a byte slice as a big-endian unsigned
integer. -/
def bytesToNat (l : Bytes) : Nat := l.foldl (fun acc b => acc * 256 + b) 0

/-- calculateNumBuckets from merkletree.go: ceil(n / 10) with a minimum of
one bucket. -/
def calculateNumBuckets (numHashes : Nat) : Nat :=
  if numHashes = 0 then 1 else (numHashes + 10 - 1) / 10

/-- getBucketIndex from merkletree.go: hashes land in bucket
floor(hash / (2^256 / numBuckets)), clamped to numBuckets - 1. For the
32-byte hashes the tree stores, the Go int64 conversion of the quotient is
exact, so plain natural division models it. -/
def getBucketIndex (hash : Bytes) (numBuckets : Nat) : Nat :=
  if numBuckets ≤ 1 then 0
  else
    let bucketSize := 2 ^ 256 / numBuckets
    let idx := bytesToNat hash / bucketSize
    if numBuckets ≤ idx then numBuckets - 1 else idx

/-- Appending one hash to the bucket at a given index, as the distribution
loop of newMerkleTreeWithBuckets does with its slice update. -/
def appendAt : List (List Bytes) → Nat → Bytes → List (List Bytes)
  | [], _, _ => []
  | b :: bs, 0, h => (b ++ [h]) :: bs
  | b :: bs, n + 1, h => b :: appendAt bs n h

/-- The distribution loop of newMerkleTreeWithBuckets: every hash is
appended, in input order, to the bucket its value selects. -/
def distribute (numBuckets : Nat) (hashes : List Bytes) : List (List Bytes) :=
  hashes.foldl (fun buckets h => appendAt buckets (getBucketIndex h numBuckets) h)
    (List.replicate numBuckets [])

/-- The bucketed Merkle tree: the mutable Go struct is modelled by its
bucket contents; the root pointer is recomputed on demand, matching the
invariant the Go code maintains by rebuilding the node tree after every
mutation. -/
structure MerkleTree where
  buckets : List (List Bytes)
  numBuckets : Nat
deriving Repr, DecidableEq

/-- newMerkleTreeWithBuckets from merkletree.go: clamp the bucket count to
at least one, distribute the hashes by value, and sort each bucket. -/
def newMerkleTreeWithBuckets (hashes : List Bytes) (numBuckets : Nat) : MerkleTree :=
  let n := if numBuckets < 1 then 1 else numBuckets
  { buckets := (distribute n hashes).map sortHashes, numBuckets := n }

/-- NewMerkleTree from merkletree.go. -/
def newMerkleTree (hashes : List Bytes) : MerkleTree :=
  newMerkleTreeWithBuckets hashes (calculateNumBuckets hashes.length)

/-- Bucket.ComputeHash from merkletree.go: BLAKE3 of the concatenated
sorted hashes, or 32 zero bytes for an empty bucket. The BLAKE3 primitive
is the parameter b3. -/
def bucketComputeHash (b3 : Bytes → Bytes) (hashes : List Bytes) : Bytes :=
  if hashes.isEmpty then zeros32 else b3 hashes.flatten

/-- One level of buildTreeFromNodes: adjacent pairs are hashed together;
an unpaired trailing node is rehashed alone (the Go hasher writes only the
left child when right is nil). -/
def combineLevel (b3 : Bytes → Bytes) : List Bytes → List Bytes
  | [] => []
  | [x] => [b3 x]
  | x :: y :: rest => b3 (x ++ y) :: combineLevel b3 rest

theorem combineLevel_length (b3 : Bytes → Bytes) (l : List Bytes) :
    (combineLevel b3 l).length = (l.length + 1) / 2 := by
  induction l using combineLevel.induct b3 with
  | case1 => simp [combineLevel]
  | case2 x => simp [combineLevel]
  | case3 x y rest ih =>
    simp only [combineLevel, List.length_cons, ih]
    omega

/-- buildTreeFromNodes collapsed to the root hash, with an explicit
recursion-depth fuel so that the definition computes by structural
recursion: every level at least halves the node count, so a fuel equal to
the node count never runs out and the zero-fuel fallback is unreachable.
An empty node list yields no root, which GetRootHash reports as 32 zero
bytes. -/
def buildLevelsFuel (b3 : Bytes → Bytes) : Nat → List Bytes → Bytes
  | _, [] => zeros32
  | _, [x] => x
  | 0, x :: _ :: _ => x
  | fuel + 1, x :: y :: rest => buildLevelsFuel b3 fuel (combineLevel b3 (x :: y :: rest))

/-- The bottom-up root computation of buildTreeFromNodes. -/
def buildLevels (b3 : Bytes → Bytes) (l : List Bytes) : Bytes :=
  buildLevelsFuel b3 l.length l

/-- GetBucketHashes from merkletree.go. -/
def MerkleTree.getBucketHashes (b3 : Bytes → Bytes) (mt : MerkleTree) : List Bytes :=
  mt.buckets.map (bucketComputeHash b3)

/-- GetRootHash from merkletree.go: the root of the binary tree built
bottom-up from the bucket hashes. -/
def MerkleTree.getRootHash (b3 : Bytes → Bytes) (mt : MerkleTree) : Bytes :=
  buildLevels b3 (mt.buckets.map (bucketComputeHash b3))

/-- getTotalHashes from merkletree.go. -/
def MerkleTree.getTotalHashes (mt : MerkleTree) : Nat :=
  (mt.buckets.map List.length).sum

/-- rebuild from merkletree.go: collect every hash and redistribute into
freshly sized buckets. -/
def MerkleTree.rebuild (mt : MerkleTree) : MerkleTree :=
  let allHashes := mt.buckets.flatten
  newMerkleTreeWithBuckets allHashes (calculateNumBuckets allHashes.length)

/-- The insertion scan of MerkleTree.Insert: walk the sorted bucket; stop
with none when the hash is already present, otherwise insert before the
first strictly greater element. -/
def bucketInsert (hash : Bytes) : List Bytes → Option (List Bytes)
  | [] => some [hash]
  | x :: xs =>
    if x = hash then none
    else if bcmp hash x = .lt then some (hash :: x :: xs)
    else (bucketInsert hash xs).map (fun l => x :: l)

/-- MerkleTree.Insert from merkletree.go: idempotent sorted insert into the
selected bucket, then a full redistribution when the average bucket load
exceeds HASHES_PER_BUCKET * 2 = 20 (the Go float comparison
total/num > 20 is exact on these integer ranges). -/
def MerkleTree.insert (mt : MerkleTree) (hash : Bytes) : MerkleTree :=
  let idx := getBucketIndex hash mt.numBuckets
  match bucketInsert hash (mt.buckets.getD idx []) with
  | none => mt
  | some newBucket =>
    let mt2 : MerkleTree := { buckets := mt.buckets.set idx newBucket, numBuckets := mt.numBuckets }
    if 20 * mt2.numBuckets < mt2.getTotalHashes then mt2.rebuild else mt2

/-- Removal of the first occurrence of a hash from a bucket, as the delete
loop of MerkleTree.Delete does. -/
def eraseFirst (hash : Bytes) : List Bytes → List Bytes
  | [] => []
  | x :: xs => if x = hash then xs else x :: eraseFirst hash xs

/-- MerkleTree.Delete from merkletree.go: remove the hash from its bucket,
then redistribute when the tree is nonempty, the average bucket load drops
below HASHES_PER_BUCKET / 4 = 2.5 and more than one bucket exists (the Go
float comparison total/num < 2.5 is 4 * total < 10 * num exactly). -/
def MerkleTree.delete (mt : MerkleTree) (hash : Bytes) : MerkleTree :=
  let idx := getBucketIndex hash mt.numBuckets
  let mt2 : MerkleTree :=
    { buckets := mt.buckets.set idx (eraseFirst hash (mt.buckets.getD idx [])),
      numBuckets := mt.numBuckets }
  let total := mt2.getTotalHashes
  if 0 < total ∧ 4 * total < 10 * mt2.numBuckets ∧ 1 < mt2.numBuckets then
    mt2.rebuild
  else mt2

theorem appendAt_getElem? (bs : List (List Bytes)) (j i : Nat) (h : Bytes) :
    (appendAt bs j h)[i]? =
      if i = j then (bs[i]?).map (fun b => b ++ [h]) else bs[i]? := by
  induction bs generalizing i j with
  | nil => simp [appendAt]
  | cons b rest ih =>
    cases j with
    | zero =>
      cases i with
      | zero => simp [appendAt]
      | succ i => simp [appendAt]
    | succ j =>
      cases i with
      | zero => simp [appendAt]
      | succ i =>
        simp only [appendAt, List.getElem?_cons_succ, ih]
        by_cases hij : i = j
        · simp [hij]
        · simp [hij, Nat.succ_ne_succ]

theorem distribute_aux_getElem? (B : Nat) (l : List Bytes)
    (acc : List (List Bytes)) (i : Nat) :
    (l.foldl (fun buckets h => appendAt buckets (getBucketIndex h B) h) acc)[i]? =
      (acc[i]?).map (fun b => b ++ l.filter (fun h => getBucketIndex h B == i)) := by
  induction l generalizing acc with
  | nil =>
    cases h : acc[i]? <;> simp [h]
  | cons x xs ih =>
    simp only [List.foldl_cons, ih, appendAt_getElem?]
    by_cases hx : getBucketIndex x B = i
    · simp only [hx, List.filter_cons, beq_self_eq_true, if_pos rfl]
      cases h : acc[i]? <;> simp [h]
    · have hx2 : (getBucketIndex x B == i) = false := by simp [hx]
      have hx3 : i ≠ getBucketIndex x B := fun hh => hx hh.symm
      simp only [List.filter_cons, hx2, if_neg hx3]
      simp

theorem distribute_getElem? (B : Nat) (l : List Bytes) (i : Nat) :
    (distribute B l)[i]? =
      if i < B then some (l.filter (fun h => getBucketIndex h B == i)) else none := by
  unfold distribute
  rw [distribute_aux_getElem?]
  by_cases hi : i < B
  · simp [List.getElem?_replicate, hi]
  · simp only [hi, if_false]
    rw [List.getElem?_eq_none]
    · simp
    · simpa using Nat.le_of_not_lt hi

/-- The buckets a permuted hash list distributes into are permutations,
bucket by bucket, of those of the original list. -/
theorem distribute_perm {l1 l2 : List Bytes} (B : Nat) (hp : List.Perm l1 l2)
    (i : Nat) :
    ∀ b1 ∈ (distribute B l1)[i]?, ∀ b2 ∈ (distribute B l2)[i]?, List.Perm b1 b2 := by
  intro b1 hb1 b2 hb2
  rw [distribute_getElem?] at hb1 hb2
  by_cases hi : i < B
  · simp only [hi, if_true, Option.mem_def, Option.some_inj] at hb1 hb2
    subst hb1
    subst hb2
    exact hp.filter _
  · simp [hi] at hb1

/-- Claim C6: building the bucketed Merkle tree from any permutation of a
hash multiset, with the same bucket count, produces identical per-bucket
hash lists, identical bucket hashes and an identical root hash. The claim
holds because every bucket receives exactly the sub-multiset of hashes its
range selects and then sorts it by byte value. -/
theorem c6_merkle_permutation_invariance (b3 : Bytes → Bytes)
    (l1 l2 : List Bytes) (B : Nat) (hp : List.Perm l1 l2) :
    (newMerkleTreeWithBuckets l1 B).buckets = (newMerkleTreeWithBuckets l2 B).buckets ∧
    MerkleTree.getBucketHashes b3 (newMerkleTreeWithBuckets l1 B) =
      MerkleTree.getBucketHashes b3 (newMerkleTreeWithBuckets l2 B) ∧
    MerkleTree.getRootHash b3 (newMerkleTreeWithBuckets l1 B) =
      MerkleTree.getRootHash b3 (newMerkleTreeWithBuckets l2 B) := by
  have hbuckets : (newMerkleTreeWithBuckets l1 B).buckets =
      (newMerkleTreeWithBuckets l2 B).buckets := by
    unfold newMerkleTreeWithBuckets
    simp only
    apply List.ext_getElem?
    intro i
    simp only [List.getElem?_map, distribute_getElem?]
    split <;> split <;>
      first
      | rfl
      | exact congrArg some (sortHashes_eq_of_perm (hp.filter _))
  refine ⟨hbuckets, ?_, ?_⟩
  · unfold MerkleTree.getBucketHashes
    rw [hbuckets]
  · unfold MerkleTree.getRootHash
    rw [hbuckets]

/-- Witness for C6 at a concrete permutation: two two-element hash lists in
swapped order produce the same two-bucket tree. -/
theorem c6_witness :
    (newMerkleTreeWithBuckets [[0, 1], [255, 2]] 2).buckets =
      (newMerkleTreeWithBuckets [[255, 2], [0, 1]] 2).buckets ∧
    MerkleTree.getBucketHashes (fun x => x) (newMerkleTreeWithBuckets [[0, 1], [255, 2]] 2) =
      MerkleTree.getBucketHashes (fun x => x) (newMerkleTreeWithBuckets [[255, 2], [0, 1]] 2) ∧
    MerkleTree.getRootHash (fun x => x) (newMerkleTreeWithBuckets [[0, 1], [255, 2]] 2) =
      MerkleTree.getRootHash (fun x => x) (newMerkleTreeWithBuckets [[255, 2], [0, 1]] 2) :=
  c6_merkle_permutation_invariance (fun x => x) [[0, 1], [255, 2]] [[255, 2], [0, 1]] 2
    (List.Perm.swap [255, 2] [0, 1] [])

/-- The bytes of a Go string, modelled as the character codes; these agree
with the UTF-8 bytes on the ASCII strings (peer ids, phrases) the code
hashes. -/
def strBytes (s : String) : Bytes := s.data.map Char.toNat

/-- The 8-byte little-endian encoding of uint64(size) written by
ComputeDataHash; the int64 to uint64 conversion wraps modulo 2^64. -/
def le64 (size : Int) : Bytes :=
  let n := (size % (2 ^ 64 : Int)).toNat
  (List.range 8).map (fun i => n / 256 ^ i % 256)

/-- ComputeDataHash from crypto.go: the incremental BLAKE3 hasher writes
key, then (for a non-nil value) value and the little-endian size, so the
digest is the hash of the concatenation; a nil value hashes the key
alone. -/
def computeDataHash (b3 : Bytes → Bytes) (key : Bytes) (value : Option Bytes)
    (size : Int) : Bytes :=
  match value with
  | none => b3 key
  | some v => b3 (key ++ v ++ le64 size)

/-- MetadataEntry from sync_methods.go. -/
structure MetadataEntry where
  hash : Bytes
  key : Bytes
  value : Option Bytes
  size : Int
deriving Repr, DecidableEq

/-- The read loop of RequestMetadata: at most one entry per requested hash
is decoded; each decoded entry is accepted only when recomputing
ComputeDataHash over its key, value and size reproduces its hash field,
and the loop aborts with an error at the first mismatch. A shorter stream
(server closed early) ends the loop without error. -/
def verifyMetadataLoop (b3 : Bytes → Bytes) :
    Nat → List MetadataEntry → Except Unit (List MetadataEntry)
  | _, [] => .ok []
  | 0, _ :: _ => .ok []
  | n + 1, e :: rest =>
    if computeDataHash b3 e.key e.value e.size = e.hash then
      match verifyMetadataLoop b3 n rest with
      | .ok es => .ok (e :: es)
      | .error u => .error u
    else .error ()

/-- RequestMetadata from sync_methods.go. The network is abstracted by the
received argument: none models a stream-open or decode failure, some l the
sequence of entries the peer sent before closing. The function requires
each requested hash to be exactly 32 bytes before sending. -/
def requestMetadata (b3 : Bytes → Bytes) (hashes : List Bytes)
    (received : Option (List MetadataEntry)) : Except Unit (List MetadataEntry) :=
  if hashes.isEmpty then .ok []
  else
    match received with
    | none => .error ()
    | some entries =>
      if hashes.any (fun h => h.length ≠ 32) then .error ()
      else verifyMetadataLoop b3 hashes.length entries

theorem verifyMetadataLoop_ok (b3 : Bytes → Bytes) (n : Nat)
    (entries es : List MetadataEntry)
    (h : verifyMetadataLoop b3 n entries = .ok es) :
    ∀ e ∈ es, computeDataHash b3 e.key e.value e.size = e.hash := by
  induction entries generalizing n es with
  | nil =>
    cases n <;> simp [verifyMetadataLoop] at h <;> subst h <;> simp
  | cons e rest ih =>
    cases n with
    | zero =>
      simp only [verifyMetadataLoop] at h
      cases h
      simp
    | succ n =>
      simp only [verifyMetadataLoop] at h
      by_cases hc : computeDataHash b3 e.key e.value e.size = e.hash
      · simp only [hc, if_true] at h
        cases hrec : verifyMetadataLoop b3 n rest with
        | ok es2 =>
          rw [hrec] at h
          cases h
          intro x hx
          rcases List.mem_cons.mp hx with hx | hx
          · subst hx
            exact hc
          · exact ih n es2 hrec x hx
        | error u =>
          rw [hrec] at h
          cases h
      · simp [hc] at h

/-- Claim C7: ComputeDataHash is BLAKE3 over key, value and the 8-byte
little-endian size when the value is non-nil, and BLAKE3 over the key
alone when it is nil; RequestMetadata accepts a received metadata entry
only when that recomputation reproduces the entry hash field, and returns
an error at the first entry for which it does not. -/
theorem c7_metadata_hash_verification (b3 : Bytes → Bytes) :
    (∀ key v size, computeDataHash b3 key (some v) size = b3 (key ++ v ++ le64 size)) ∧
    (∀ key size, computeDataHash b3 key none size = b3 key) ∧
    (∀ hashes received es, requestMetadata b3 hashes received = .ok es →
      ∀ e ∈ es, computeDataHash b3 e.key e.value e.size = e.hash) ∧
    (∀ hashes e rest, hashes ≠ [] → (∀ h ∈ hashes, h.length = 32) →
      computeDataHash b3 e.key e.value e.size ≠ e.hash →
      requestMetadata b3 hashes (some (e :: rest)) = .error ()) := by
  refine ⟨fun _ _ _ => rfl, fun _ _ => rfl, ?_, ?_⟩
  · intro hashes received es hok e he
    unfold requestMetadata at hok
    by_cases hemp : hashes.isEmpty
    · simp only [hemp, if_true] at hok
      cases hok
      simp at he
    · simp only [hemp, if_false] at hok
      cases received with
      | none => cases hok
      | some entries =>
        simp only at hok
        by_cases hlen : (hashes.any fun h => h.length ≠ 32) = true
        · rw [if_pos hlen] at hok
          cases hok
        · rw [if_neg hlen] at hok
          exact verifyMetadataLoop_ok b3 hashes.length entries es hok e he
  · intro hashes e rest hne hlen hbad
    unfold requestMetadata
    have hemp : hashes.isEmpty = false := by
      cases hashes with
      | nil => exact absurd rfl hne
      | cons a l => rfl
    have hany : hashes.any (fun h => h.length ≠ 32) = false := by
      rw [List.any_eq_false]
      intro h hh
      simpa using hlen h hh
    simp only [hemp, Bool.false_eq_true, if_false, hany]
    cases hashes with
    | nil => exact absurd rfl hne
    | cons a l =>
      simp [verifyMetadataLoop, hbad]

/-- Witness for C7: the identity hash accepts a folder entry whose hash
equals its key, and rejects a stream whose first entry fails the
recomputation. -/
theorem c7_witness :
    computeDataHash (fun x => x) [1, 2] none 0 = [1, 2] ∧
    requestMetadata (fun x => x) [zeros32]
      (some [{ hash := [9], key := [1], value := none, size := 0 }]) = .error () := by
  constructor
  · exact (c7_metadata_hash_verification (fun x => x)).2.1 [1, 2] 0
  · exact (c7_metadata_hash_verification (fun x => x)).2.2.2 [zeros32]
      { hash := [9], key := [1], value := none, size := 0 } []
      (by decide) (by decide) (by decide)

/-- challengeResponse from discovery_service.go. -/
structure ChallengeResponse where
  result : Bytes
  salt : Bytes
deriving Repr, DecidableEq

/-- solveChallenge from discovery_service.go: with the scrypt derivation
(N = 2^15, r = 8, p = 1, len = 32) abstracted as scryptKey, the response
is the derivation of phrase concatenated with the challenge under a fresh
random salt, which is returned alongside. -/
def solveChallenge (scryptKey : Bytes → Bytes → Bytes) (syncPhrase : String)
    (challenge : Bytes) (salt : Bytes) : ChallengeResponse :=
  { result := scryptKey (strBytes syncPhrase ++ challenge) salt, salt := salt }

/-- verifyChallengeResponse from discovery_service.go: recompute the
derivation with the salt the peer supplied and compare byte-wise. With the
fixed valid parameters scrypt.Key cannot fail, and every other path simply
returns a boolean, so the function is total. -/
def verifyChallengeResponse (scryptKey : Bytes → Bytes → Bytes)
    (syncPhrase : String) (challenge : Bytes) (response : ChallengeResponse) : Bool :=
  decide (scryptKey (strBytes syncPhrase ++ challenge) response.salt = response.result)

/-- Claim C10: verifyChallengeResponse returns true exactly when the
response result equals the scrypt derivation of phrase and challenge under
the response salt; every response produced by solveChallenge verifies; and
a response whose salt was mangled (so that the derivation changes) returns
false, with no panicking path in the function. -/
theorem c10_challenge_response (scryptKey : Bytes → Bytes → Bytes)
    (syncPhrase : String) (challenge : Bytes) :
    (∀ resp, verifyChallengeResponse scryptKey syncPhrase challenge resp = true ↔
      resp.result = scryptKey (strBytes syncPhrase ++ challenge) resp.salt) ∧
    (∀ salt, verifyChallengeResponse scryptKey syncPhrase challenge
      (solveChallenge scryptKey syncPhrase challenge salt) = true) ∧
    (∀ salt mangled,
      scryptKey (strBytes syncPhrase ++ challenge) mangled ≠
        scryptKey (strBytes syncPhrase ++ challenge) salt →
      verifyChallengeResponse scryptKey syncPhrase challenge
        { result := (solveChallenge scryptKey syncPhrase challenge salt).result,
          salt := mangled } = false) := by
  refine ⟨?_, ?_, ?_⟩
  · intro resp
    unfold verifyChallengeResponse
    rw [decide_eq_true_iff]
    exact eq_comm
  · intro salt
    unfold verifyChallengeResponse solveChallenge
    simp
  · intro salt mangled hne
    unfold verifyChallengeResponse solveChallenge
    simp only [decide_eq_false_iff_not]
    exact hne

/-- Witness for C10 at a concrete derivation: with scrypt mocked as
concatenation, a solved challenge verifies and a response with salt [2]
in place of [1] is rejected. -/
theorem c10_witness :
    verifyChallengeResponse (fun msg salt => msg ++ salt) "p" [7]
      (solveChallenge (fun msg salt => msg ++ salt) "p" [7] [1]) = true ∧
    verifyChallengeResponse (fun msg salt => msg ++ salt) "p" [7]
      { result := (solveChallenge (fun msg salt => msg ++ salt) "p" [7] [1]).result,
        salt := [2] } = false := by
  constructor
  · exact (c10_challenge_response (fun msg salt => msg ++ salt) "p" [7]).2.1 [1]
  · exact (c10_challenge_response (fun msg salt => msg ++ salt) "p" [7]).2.2 [1] [2]
      (by simp)

/-- The 64 KiB plaintext frame size of EncryptStream. -/
def goChunkSize : Nat := 64 * 1024

/-- The AES-GCM nonce size used by cipher.NewGCM. -/
def gcmNonceSize : Nat := 12

/-- The AES-GCM authentication tag size (gcm.Overhead). -/
def gcmOverhead : Nat := 16

/-- The size of one encrypted frame record: nonce, ciphertext of a full
plaintext chunk, tag. -/
def encChunkSize : Nat := goChunkSize + gcmNonceSize + gcmOverhead

/-- The source read loop of EncryptStream: a byte source hands out full
64 KiB chunks until fewer bytes remain. -/
def splitChunks (x : Bytes) : List Bytes :=
  if h : x = [] then []
  else x.take goChunkSize :: splitChunks (x.drop goChunkSize)
termination_by x.length
decreasing_by
  have hx : 0 < x.length := List.length_pos.mpr h
  simp only [List.length_drop, goChunkSize]
  omega

/-- The frame emission of EncryptStream: for every plaintext chunk a fresh
nonce is drawn (nonces is the random-nonce stream, indexed per frame) and
gcm.Seal appends ciphertext and tag after the nonce. sealF is the AES-GCM
sealing primitive taking key, nonce and plaintext. -/
def encFrames (sealF : Bytes → Bytes → Bytes → Bytes) (nonces : Nat → Bytes)
    (key : Bytes) (i : Nat) : List Bytes → Bytes
  | [] => []
  | c :: rest => (nonces i ++ sealF key (nonces i) c) ++ encFrames sealF nonces key (i + 1) rest

/-- EncryptStream from crypto.go: chunk the source into 64 KiB frames and
write nonce, ciphertext and tag per frame. -/
def encryptStream (sealF : Bytes → Bytes → Bytes → Bytes) (nonces : Nat → Bytes)
    (key : Bytes) (x : Bytes) : Bytes :=
  encFrames sealF nonces key 0 (splitChunks x)

/-- DecryptStream from crypto.go. Each loop iteration reads at least
nonceSize + 1 and at most encChunkSize bytes (a byte source fills the
whole buffer when enough remains), splits nonce and ciphertext, opens the
frame, and stops after the first short frame. Zero bytes on a boundary end
the loop; one to eleven remaining bytes make the Go ciphertext slice
expression panic, modelled as none; gcm.Open failure also yields none. -/
def decryptLoop (gcmOpen : Bytes → Bytes → Bytes → Option Bytes) (key : Bytes)
    (input : Bytes) : Option Bytes :=
  if h : input = [] then some []
  else if input.length < gcmNonceSize then none
  else
    let n := min encChunkSize input.length
    let nonce := input.take gcmNonceSize
    let ct := (input.take n).drop gcmNonceSize
    match gcmOpen key nonce ct with
    | none => none
    | some pt =>
      if n < encChunkSize then some pt
      else (decryptLoop gcmOpen key (input.drop n)).map (fun rest => pt ++ rest)
termination_by input.length
decreasing_by
  have hx : 0 < input.length := List.length_pos.mpr h
  simp only [List.length_drop]
  have : 0 < min encChunkSize input.length := by
    simp only [encChunkSize, goChunkSize, gcmNonceSize, gcmOverhead]
    omega
  omega

/-- DecryptStream entry point. -/
def decryptStream (gcmOpen : Bytes → Bytes → Bytes → Option Bytes) (key : Bytes)
    (input : Bytes) : Option Bytes :=
  decryptLoop gcmOpen key input

theorem splitChunks_nil : splitChunks [] = [] := by
  rw [splitChunks]
  simp

theorem decryptLoop_encFrames (sealF : Bytes → Bytes → Bytes → Bytes)
    (gcmOpen : Bytes → Bytes → Bytes → Option Bytes) (nonces : Nat → Bytes)
    (key : Bytes)
    (hRound : ∀ i p, gcmOpen key (nonces i) (sealF key (nonces i) p) = some p)
    (hSealLen : ∀ nonce p, (sealF key nonce p).length = p.length + gcmOverhead)
    (hNonceLen : ∀ i, (nonces i).length = gcmNonceSize) :
    ∀ x i, decryptLoop gcmOpen key (encFrames sealF nonces key i (splitChunks x)) = some x := by
  have main : ∀ n x i, x.length ≤ n →
      decryptLoop gcmOpen key (encFrames sealF nonces key i (splitChunks x)) = some x := by
    intro n
    induction n using Nat.strong_induction_on with
    | _ n ih =>
      intro x i hxn
      have hGC : goChunkSize = 65536 := rfl
      have hNS : gcmNonceSize = 12 := rfl
      have hOV : gcmOverhead = 16 := rfl
      have hEC : encChunkSize = 65564 := rfl
      by_cases hx : x = []
      · subst hx
        rw [splitChunks_nil]
        simp [encFrames, decryptLoop]
      · have hxpos : 0 < x.length := List.length_pos.mpr hx
        rw [splitChunks]
        simp only [hx, dite_false]
        set c := x.take goChunkSize with hc
        set rest := x.drop goChunkSize with hrest
        have hclen : c.length = min goChunkSize x.length := by
          simp [hc]
        have hcpos : 0 < c.length := by
          simp only [hclen, goChunkSize]
          omega
        simp only [encFrames]
        set fr := nonces i ++ sealF key (nonces i) c with hfr
        have hfrlen : fr.length = c.length + gcmNonceSize + gcmOverhead := by
          simp only [hfr, List.length_append, hNonceLen i, hSealLen]
          omega
        set tl := encFrames sealF nonces key (i + 1) (splitChunks rest) with htl
        have hinput : fr ++ tl = nonces i ++ (sealF key (nonces i) c ++ tl) := by
          simp [hfr, List.append_assoc]
        rw [decryptLoop]
        have hne : fr ++ tl ≠ [] := by
          intro habs
          have : (fr ++ tl).length = 0 := by rw [habs]; rfl
          simp only [List.length_append, hfrlen] at this
          omega
        simp only [hne, dite_false]
        have hgen : ¬ (fr ++ tl).length < gcmNonceSize := by
          simp only [List.length_append, hfrlen, gcmNonceSize]
          omega
        rw [if_neg hgen]
        by_cases hbig : goChunkSize < x.length
        · -- a full chunk was emitted and more input follows
          have hcfull : c.length = goChunkSize := by
            simp only [hclen]
            omega
          have hfrfull : fr.length = encChunkSize := by
            simp only [hfrlen, hcfull, encChunkSize]
          have htllen : 0 < tl.length := by
            have hrestne : rest ≠ [] := by
              intro habs
              have := congrArg List.length habs
              simp only [hrest, List.length_drop, List.length_nil] at this
              omega
            rw [htl, splitChunks]
            simp only [hrestne, dite_false, encFrames, List.length_append,
              List.length_append, hNonceLen, hSealLen]
            omega
          have hmin : min encChunkSize (fr ++ tl).length = encChunkSize := by
            simp only [List.length_append, hfrfull]
            omega
          rw [hmin]
          have htake : (fr ++ tl).take encChunkSize = fr := List.take_left' hfrfull
          have hdrop : (fr ++ tl).drop encChunkSize = tl := List.drop_left' hfrfull
          have hnonce : (fr ++ tl).take gcmNonceSize = nonces i := by
            rw [hinput]
            exact List.take_left' (hNonceLen i)
          have hct : ((fr ++ tl).take encChunkSize).drop gcmNonceSize =
              sealF key (nonces i) c := by
            rw [htake, hfr]
            exact List.drop_left' (hNonceLen i)
          have hnot : ¬ encChunkSize < encChunkSize := lt_irrefl _
          have hrestlen : rest.length < n := by
            simp only [hrest, List.length_drop]
            omega
          simp only [hnonce, hct, hRound i c]
          rw [if_neg hnot, hdrop, htl]
          rw [ih rest.length hrestlen rest (i + 1) le_rfl]
          simp only [Option.map_some']
          rw [hc, hrest, List.take_append_drop]
        · -- the final, possibly short chunk
          have hclast : c = x := List.take_of_length_le (by omega)
          have hrestnil : rest = [] := by
            simp only [hrest]
            exact List.drop_eq_nil_of_le (by omega)
          have htlnil : tl = [] := by
            rw [htl, hrestnil, splitChunks_nil]
            rfl
          have hlenle : (fr ++ tl).length ≤ encChunkSize := by
            simp only [htlnil, List.append_nil, hfrlen, hclen, encChunkSize,
              goChunkSize, gcmNonceSize, gcmOverhead] at *
            omega
          have hmin : min encChunkSize (fr ++ tl).length = (fr ++ tl).length :=
            Nat.min_eq_right hlenle
          rw [hmin]
          have htake : (fr ++ tl).take (fr ++ tl).length = fr ++ tl :=
            List.take_of_length_le le_rfl
          have hnonce : (fr ++ tl).take gcmNonceSize = nonces i := by
            rw [hinput]
            exact List.take_left' (hNonceLen i)
          have hct : ((fr ++ tl).take (fr ++ tl).length).drop gcmNonceSize =
              sealF key (nonces i) c := by
            rw [htake, htlnil, List.append_nil, hfr]
            exact List.drop_left' (hNonceLen i)
          simp only [hnonce, hct, hRound i c]
          by_cases hshort : (fr ++ tl).length < encChunkSize
          · rw [if_pos hshort, hclast]
          · rw [if_neg hshort]
            have hdropnil : (fr ++ tl).drop (fr ++ tl).length = [] :=
              List.drop_eq_nil_of_le le_rfl
            rw [hdropnil, decryptLoop]
            simp only [dite_true]
            simp [hclast]
  intro x i
  exact main x.length x i le_rfl

/-- Claim C8: decrypting the output of EncryptStream with the same key
recovers the plaintext exactly. The AES-GCM primitives are abstracted as
sealF and gcmOpen with the two properties the cipher guarantees: opening a
sealed frame under the same key and nonce returns the plaintext, and
sealing adds exactly the 16-byte tag; nonces is the per-frame random nonce
stream with the 12-byte GCM nonce size. -/
theorem c8_stream_roundtrip (sealF : Bytes → Bytes → Bytes → Bytes)
    (gcmOpen : Bytes → Bytes → Bytes → Option Bytes) (nonces : Nat → Bytes)
    (key x : Bytes)
    (hRound : ∀ i p, gcmOpen key (nonces i) (sealF key (nonces i) p) = some p)
    (hSealLen : ∀ nonce p, (sealF key nonce p).length = p.length + gcmOverhead)
    (hNonceLen : ∀ i, (nonces i).length = gcmNonceSize) :
    decryptStream gcmOpen key (encryptStream sealF nonces key x) = some x :=
  decryptLoop_encFrames sealF gcmOpen nonces key hRound hSealLen hNonceLen x 0

/-- Witness for C8 with a mock cipher (sealF appends a 16-byte tag, open
strips it) on the three-byte plaintext [1, 2, 3]. -/
theorem c8_witness :
    decryptStream (fun _ _ c => some (c.take (c.length - 16))) []
      (encryptStream (fun _ _ p => p ++ List.replicate 16 0)
        (fun _ => List.replicate 12 0) [] [1, 2, 3]) = some [1, 2, 3] := by
  refine c8_stream_roundtrip (fun _ _ p => p ++ List.replicate 16 0)
    (fun _ _ c => some (c.take (c.length - 16))) (fun _ => List.replicate 12 0)
    [] [1, 2, 3] ?_ ?_ ?_
  · intro i p
    simp only [List.length_append, List.length_replicate, Nat.add_sub_cancel]
    rw [List.take_left]
  · intro nonce p
    simp [gcmOverhead]
  · intro i
    simp [gcmNonceSize]

/-- PeerUpdate from update.go. -/
structure PeerUpdate where
  action : String
  peerID : String
  addresses : List String
deriving Repr, DecidableEq

/-- DataUpdate from update.go. -/
structure DataUpdate where
  action : String
  key : Bytes
  value : Option Bytes
  size : Int
  hash : Bytes
deriving Repr, DecidableEq

/-- The untyped UpdateData interface field of Update carries either payload
shape; the Go code distinguishes them by re-marshalling, which the tagged
union models. -/
inductive UpdateData where
  | peerU (pu : PeerUpdate)
  | dataU (du : DataUpdate)
deriving Repr, DecidableEq

/-- Update from update.go; updateID is the Go uint64 (arithmetic on it is
taken modulo 2^64 where the code increments it). -/
structure Update where
  updateID : Nat
  peerListHash : Bytes
  prevPeerListHash : Bytes
  dataHash : Bytes
  prevDataHash : Bytes
  numBuckets : Nat
  updateDataType : String
  updateData : UpdateData
  timestamp : Int
deriving Repr, DecidableEq

/-- SignedUpdate from update.go: canonical JSON bytes of the update plus
the ed25519 signature over exactly those bytes. -/
structure SignedUpdate where
  updateBytes : Bytes
  signature : Bytes
deriving Repr, DecidableEq

/-- The primitives the core uses that live outside this repository:
BLAKE3, ed25519 verification and signing, JSON decoding and encoding of
updates, multiaddr validity filtering, and the libp2p peer.ID cast plus
String round trip performed by peerInfoFromPeerUpdate followed by
AddPeer. -/
structure Prims where
  b3 : Bytes → Bytes
  verify : Bytes → Bytes → Bytes → Bool
  sign : Bytes → Bytes → Bytes
  parseUpdate : Bytes → Option Update
  marshalUpdate : Update → Bytes
  maValid : String → Bool
  pidStr : String → String

/-- One row of the sqlite data table. -/
structure DataRow where
  key : Bytes
  value : Option Bytes
  size : Int
  hash : Bytes
  inCurrent : Bool
  downloadProgress : Int
deriving Repr, DecidableEq

/-- The persistent and in-memory node state the core mutates: node-table
properties (absent until first set, like sql.ErrNoRows), the data, peers
and updates tables, and the in-memory Merkle tree. The lastestUpdate field
models the literally misspelled node property key written by
PublishDataUpdate, which is distinct from the latest_update key the sync
path writes. -/
structure NodeState where
  masterPublicKey : Bytes
  masterPrivateKey : Option Bytes
  hasStorage : Bool
  currentUpdateID : Option Nat
  dataHashProp : Option Bytes
  peerListHashProp : Option Bytes
  latestUpdate : Option SignedUpdate
  lastestUpdate : Option SignedUpdate
  dataTable : List DataRow
  peersTable : List (String × String)
  updatesLog : List (Nat × SignedUpdate)
  merkle : MerkleTree
deriving Repr, DecidableEq

/-- The responses the remote peer named from would give to the requests a
single processUpdate run can make: none models a failed stream. fileServe
gives the number of bytes the peer actually serves for a file request and
blobValid the outcome of the post-download hash validation. -/
structure Env where
  peerListResp : Option (List (String × List String))
  treeBucketHashesResp : List Bytes
  dataBucketHashesResp : Option (List (Nat × List Bytes))
  metadataResp : Option (List MetadataEntry)
  fileServe : Bytes → Nat
  blobValid : Bytes → Bool

/-- The result of a Go call: nil error, non-nil error, or a runtime
panic. -/
inductive Outcome where
  | ok
  | err
  | panicked
deriving Repr, DecidableEq

/-- Insertion step of the string sort used for peer-id lists. -/
def insertStr (s : String) : List String → List String
  | [] => [s]
  | x :: xs => if s < x then s :: x :: xs else x :: insertStr s xs

/-- sort.Strings and the SQL ORDER BY peer_id: lexicographic ascending. -/
def sortStrings (l : List String) : List String :=
  l.foldl (fun acc x => insertStr x acc) []

/-- ComputePeerListHash from update.go: BLAKE3 over the sorted peer ids
written in sequence; the empty list hashes to 32 zero bytes. -/
def computePeerListHash (b3 : Bytes → Bytes) (peerIDs : List String) : Bytes :=
  if peerIDs.isEmpty then zeros32
  else b3 ((sortStrings peerIDs).map strBytes).flatten

/-- PutData: INSERT OR REPLACE by key; the replacing row takes the column
defaults in_current = 1 and download_progress = 0. -/
def putDataRows (rows : List DataRow) (key : Bytes) (value : Option Bytes)
    (size : Int) (hash : Bytes) : List DataRow :=
  rows.filter (fun r => decide (r.key ≠ key)) ++
    [{ key := key, value := value, size := size, hash := hash,
       inCurrent := true, downloadProgress := 0 }]

/-- DeleteData: delete by key. -/
def deleteDataRows (rows : List DataRow) (key : Bytes) : List DataRow :=
  rows.filter (fun r => decide (r.key ≠ key))

/-- MarkAllStale: clear in_current on every row. -/
def markAllStaleRows (rows : List DataRow) : List DataRow :=
  rows.map (fun r => { r with inCurrent := false })

/-- MarkHashCurrent: set in_current on every row with the given hash. -/
def markHashCurrentRows (rows : List DataRow) (hash : Bytes) : List DataRow :=
  rows.map (fun r => if r.hash = hash then { r with inCurrent := true } else r)

/-- GetStaleHashes: hashes of rows with in_current = 0. -/
def getStaleHashes (rows : List DataRow) : List Bytes :=
  (rows.filter (fun r => !r.inCurrent)).map (fun r => r.hash)

/-- DeleteStaleEntries: drop rows with in_current = 0. -/
def deleteStaleRows (rows : List DataRow) : List DataRow :=
  rows.filter (fun r => r.inCurrent)

/-- GetDownloadProgress: the progress column of the first row whose value
column equals the file hash, or zero. -/
def getDownloadProgressRows (rows : List DataRow) (hash : Bytes) : Int :=
  match rows.find? (fun r => decide (r.value = some hash)) with
  | some r => r.downloadProgress
  | none => 0

/-- SetDownloadProgress: update the progress column on every row whose
value column equals the file hash. -/
def setDownloadProgressRows (rows : List DataRow) (hash : Bytes) (p : Int) :
    List DataRow :=
  rows.map (fun r => if r.value = some hash then { r with downloadProgress := p } else r)

/-- containsHash from sync_methods.go. -/
def containsHash (hashes : List Bytes) (target : Bytes) : Bool :=
  hashes.any (fun h => h == target)

/-- GetAllPeerIDs: every peer id, sorted ascending by the SQL ORDER BY. -/
def getAllPeerIDs (s : NodeState) : List String :=
  sortStrings (s.peersTable.map Prod.fst)

/-- AddPeer: INSERT OR REPLACE by peer id, addresses joined by newline. -/
def addPeerRow (peers : List (String × String)) (id addrs : String) :
    List (String × String) :=
  peers.filter (fun p => decide (p.1 ≠ id)) ++ [(id, addrs)]

/-- RemovePeer. -/
def removePeerRow (peers : List (String × String)) (id : String) :
    List (String × String) :=
  peers.filter (fun p => decide (p.1 ≠ id))

/-- UpdatePeerAddresses. -/
def updatePeerAddrs (peers : List (String × String)) (id addrs : String) :
    List (String × String) :=
  peers.map (fun p => if p.1 = id then (id, addrs) else p)

/-- InsertSignedUpdate: INSERT OR REPLACE into the updates log by id. -/
def insertLog (log : List (Nat × SignedUpdate)) (id : Nat) (su : SignedUpdate) :
    List (Nat × SignedUpdate) :=
  log.filter (fun e => decide (e.1 ≠ id)) ++ [(id, su)]

/-- big.Int.Bytes with an explicit recursion-depth fuel so that the
encoding computes by structural recursion; each step divides by 256, so a
fuel of n itself is ample. -/
def natBytesBEFuel : Nat → Nat → Bytes
  | 0, _ => []
  | fuel + 1, n => if n = 0 then [] else natBytesBEFuel fuel (n / 256) ++ [n % 256]

/-- big.Int.Bytes: the minimal big-endian byte encoding, empty for zero. -/
def natBytesBE (n : Nat) : Bytes := natBytesBEFuel n n

/-- computeBucketRange from storage/helpers.go. A single bucket covers
[0^32, FF^32); otherwise start = i * (2^256 / B) and the end is the next
boundary, with the last bucket ending at 2^256. Each boundary is copied
into a 32-byte buffer right-aligned; when the minimal encoding exceeds 32
bytes the Go slice expression end[32-len:] has a negative bound and the
function panics, modelled as none. -/
def computeBucketRange (bucketIdx numBuckets : Nat) : Option (Bytes × Bytes) :=
  if numBuckets ≤ 1 then some (zeros32, List.replicate 32 255)
  else
    let bucketSize := 2 ^ 256 / numBuckets
    let startInt := bucketIdx * bucketSize
    let endInt := if bucketIdx = numBuckets - 1 then 2 ^ 256 else (bucketIdx + 1) * bucketSize
    let startBytes := natBytesBE startInt
    let endBytes := natBytesBE endInt
    if startBytes.length ≤ 32 ∧ endBytes.length ≤ 32 then
      some (List.replicate (32 - startBytes.length) 0 ++ startBytes,
            List.replicate (32 - endBytes.length) 0 ++ endBytes)
    else none

/-- GetBucketHashes from storage/helpers.go: the hash column of every row
in [start, end), in ascending order (sqlite compares blobs like
bytes.Compare); a panic in computeBucketRange propagates. -/
def dbGetBucketHashes (rows : List DataRow) (bucketIdx numBuckets : Nat) :
    Option (List Bytes) :=
  match computeBucketRange bucketIdx numBuckets with
  | none => none
  | some (lo, hi) =>
    some (sortHashes ((rows.map (fun r => r.hash)).filter
      (fun h => decide (bcmp h lo ≠ .lt) && decide (bcmp h hi = .lt))))

/-- insertData from sync_methods.go: write the row and insert the hash into
the Merkle tree. -/
def insertData (s : NodeState) (key : Bytes) (value : Option Bytes)
    (size : Int) (hash : Bytes) : NodeState :=
  { s with dataTable := putDataRows s.dataTable key value size hash,
           merkle := s.merkle.insert hash }

/-- deleteData from sync_methods.go. -/
def deleteData (s : NodeState) (key hash : Bytes) : NodeState :=
  { s with dataTable := deleteDataRows s.dataTable key,
           merkle := s.merkle.delete hash }

/-- updateDataHash from sync_methods.go: store the Merkle root in the
data_hash node property. -/
def updateDataHash (p : Prims) (s : NodeState) : NodeState :=
  { s with dataHashProp := some (s.merkle.getRootHash p.b3) }

/-- downloadFile from sync_methods.go: resumable ranged download. Replicas
without storage return immediately; a download equal to the recorded
progress is a no-op; otherwise the loop appends served bytes and advances
the progress, failing with the progress kept when the peer serves fewer
bytes than requested, and resetting the progress to zero when the
completed blob fails validation. A failed stream open is the case of zero
served bytes. -/
def downloadFile (env : Env) (s : NodeState) (fileHash : Bytes) (fileSize : Int) :
    NodeState × Outcome :=
  if !s.hasStorage then (s, .ok)
  else
    let offset := getDownloadProgressRows s.dataTable fileHash
    if offset = fileSize then (s, .ok)
    else
      let length := fileSize - offset
      let served : Int := Int.ofNat (env.fileServe fileHash)
      let written := if length ≤ 0 then 0 else min served length
      if written ≠ length then
        (if 0 < written then
          { s with dataTable := setDownloadProgressRows s.dataTable fileHash (offset + written) }
         else s, .err)
      else
        let s2 := { s with dataTable := setDownloadProgressRows s.dataTable fileHash fileSize }
        if env.blobValid fileHash then (s2, .ok)
        else ({ s2 with dataTable := setDownloadProgressRows s2.dataTable fileHash 0 }, .err)

/-- The json.Marshal plus json.Unmarshal round trip applyPeerUpdate runs on
the untyped payload: a DataUpdate payload shares only the action tag, the
other PeerUpdate fields decode to their zero values, and no decode error
occurs. -/
def toPeerUpdate : UpdateData → PeerUpdate
  | .peerU pu => pu
  | .dataU du => { action := du.action, peerID := "", addresses := [] }

/-- The corresponding round trip applyDataUpdate runs: a PeerUpdate payload
shares only the action tag. -/
def toDataUpdate : UpdateData → DataUpdate
  | .dataU du => du
  | .peerU pu => { action := pu.action, key := [], value := none, size := 0, hash := [] }

/-- syncPeerListFull from sync.go: request the whole peer list, replace the
peers table atomically (ReplaceAllPeers rolls back on a duplicate id), and
fail when the recomputed peer-list hash misses the expected one — with the
replacement already committed. -/
def syncPeerListFull (p : Prims) (env : Env) (s : NodeState) (expectedHash : Bytes) :
    NodeState × Outcome :=
  match env.peerListResp with
  | none => (s, .err)
  | some resp =>
    if (resp.map Prod.fst).Nodup then
      let s2 := { s with peersTable := resp.map (fun pr => (pr.1, String.intercalate "\n" pr.2)) }
      if computePeerListHash p.b3 (getAllPeerIDs s2) = expectedHash then (s2, .ok)
      else (s2, .err)
    else (s, .err)

/-- applyPeerUpdate from sync.go: fast-forward one peer ADD or REMOVE, then
verify the resulting peer-list hash, pulling the full list on mismatch.
On ADD of an unknown peer the stored id is the peer.ID cast and String
round trip of the sent id and the stored addresses are the reprinted valid
multiaddrs. -/
def applyPeerUpdate (p : Prims) (env : Env) (s : NodeState) (ud : UpdateData)
    (expectedHash : Bytes) : NodeState × Outcome :=
  let pu := toPeerUpdate ud
  let applied : Option NodeState :=
    if pu.action = "ADD" then
      if (s.peersTable.map Prod.fst).contains pu.peerID then
        let addrsStr := String.intercalate "\n" pu.addresses
        some { s with peersTable := updatePeerAddrs s.peersTable pu.peerID addrsStr }
      else
        let addrsStr := String.intercalate "\n" (pu.addresses.filter p.maValid)
        some { s with peersTable := addPeerRow s.peersTable (p.pidStr pu.peerID) addrsStr }
    else if pu.action = "REMOVE" then
      some { s with peersTable := removePeerRow s.peersTable pu.peerID }
    else none
  match applied with
  | none => (s, .err)
  | some s2 =>
    if computePeerListHash p.b3 (getAllPeerIDs s2) = expectedHash then (s2, .ok)
    else syncPeerListFull p env s2 expectedHash

/-- syncPeerList from sync.go: done when hashes already agree, fast-forward
when the previous hash matches and the kind is PEER, full sync
otherwise. -/
def syncPeerList (p : Prims) (env : Env) (s : NodeState) (u : Update) :
    NodeState × Outcome :=
  let currentHash := s.peerListHashProp.getD zeros32
  if u.peerListHash = currentHash then (s, .ok)
  else if u.prevPeerListHash = currentHash ∧ u.updateDataType = "PEER" then
    applyPeerUpdate p env s u.updateData u.peerListHash
  else syncPeerListFull p env s u.peerListHash

/-- applyDataUpdate from sync.go: fast-forward one data action. ADD and
MODIFY insert the row and Merkle entry and download the blob when a value
is present (download failures are logged and swallowed); DELETE removes
row and Merkle entry; afterwards the data_hash property is recomputed from
the local root. No comparison against the update data_hash happens on this
path. -/
def applyDataUpdate (p : Prims) (env : Env) (s : NodeState) (ud : UpdateData) :
    NodeState × Outcome :=
  let du := toDataUpdate ud
  if du.action = "ADD" ∨ du.action = "MODIFY" then
    let s1 := insertData s du.key du.value du.size du.hash
    let s2 := match du.value with
      | some v => (downloadFile env s1 v du.size).1
      | none => s1
    (updateDataHash p s2, .ok)
  else if du.action = "DELETE" then
    (updateDataHash p (deleteData s du.key du.hash), .ok)
  else (s, .err)

/-- The Go map built from the data-bucket-hashes response: for duplicate
indices the later entry wins; absent indices give the empty slice. -/
def respMapOf (l : List (Nat × List Bytes)) (i : Nat) : List Bytes :=
  match l.reverse.find? (fun e => e.1 == i) with
  | some e => e.2
  | none => []

/-- The per-bucket loop shared by syncDataFull and rebuildTreeFromPeer:
for each differing bucket read the local hashes for its range (the range
computation can panic, reported as none alongside the state reached),
collect the peer hashes that are locally unknown for download, and mark
every peer hash current. Also accumulates all peer hashes for the rebuild
path. -/
def collectBuckets (resp : Nat → List Bytes) (numBuckets : Nat) :
    List Nat → NodeState → NodeState × Option (List Bytes × List Bytes)
  | [], s => (s, some ([], []))
  | i :: rest, s =>
    match dbGetBucketHashes s.dataTable i numBuckets with
    | none => (s, none)
    | some localHashes =>
      let peerHashes := resp i
      let toDl := peerHashes.filter (fun h => !(containsHash localHashes h))
      let rows2 := peerHashes.foldl (fun rows h => markHashCurrentRows rows h) s.dataTable
      let s2 := { s with dataTable := rows2 }
      match collectBuckets resp numBuckets rest s2 with
      | (s3, none) => (s3, none)
      | (s3, some (dl, all)) => (s3, some (toDl ++ dl, peerHashes ++ all))

/-- Phase 4 of rebuildTreeFromPeer: pull metadata for unknown hashes and
store each row (the rebuild loop does not touch the Merkle tree), then
download the blob when a value is present (failures swallowed). -/
def pullMetadataRebuild (p : Prims) (env : Env) (toDownload : List Bytes)
    (s : NodeState) : NodeState × Outcome :=
  if toDownload.isEmpty then (s, .ok)
  else
    match requestMetadata p.b3 toDownload env.metadataResp with
    | .error _ => (s, .err)
    | .ok metadataList =>
      (metadataList.foldl (fun st m =>
        let st1 := { st with dataTable := putDataRows st.dataTable m.key m.value m.size m.hash }
        match m.value with
        | some v => (downloadFile env st1 v m.size).1
        | none => st1) s, .ok)

/-- Phase 4 of syncDataFull: like the rebuild pull but each stored row is
also inserted into the Merkle tree. -/
def pullMetadataSync (p : Prims) (env : Env) (toDownload : List Bytes)
    (s : NodeState) : NodeState × Outcome :=
  if toDownload.isEmpty then (s, .ok)
  else
    match requestMetadata p.b3 toDownload env.metadataResp with
    | .error _ => (s, .err)
    | .ok metadataList =>
      (metadataList.foldl (fun st m =>
        let st1 := { st with
          dataTable := putDataRows st.dataTable m.key m.value m.size m.hash,
          merkle := st.merkle.insert m.hash }
        match m.value with
        | some v => (downloadFile env st1 v m.size).1
        | none => st1) s, .ok)

/-- rebuildTreeFromPeer from sync.go: on a bucket-count mismatch request
every bucket, mark all rows stale, pull unknown metadata rows (and blobs,
failures swallowed), delete rows still stale, rebuild the Merkle tree from
the peer hashes with the peer bucket count, refresh data_hash and verify
the root. -/
def rebuildTreeFromPeer (p : Prims) (env : Env) (s : NodeState) (numBuckets : Nat)
    (expectedHash : Bytes) : NodeState × Outcome :=
  let allIndices := List.range numBuckets
  match env.dataBucketHashesResp with
  | none => (s, .err)
  | some respList =>
    let s1 := { s with dataTable := markAllStaleRows s.dataTable }
    match collectBuckets (respMapOf respList) numBuckets allIndices s1 with
    | (s2, none) => (s2, .panicked)
    | (s2, some (toDownload, allPeerHashes)) =>
      match pullMetadataRebuild p env toDownload s2 with
      | (s3, .ok) =>
        let s4 := { s3 with dataTable := deleteStaleRows s3.dataTable }
        let s5 := { s4 with merkle := newMerkleTreeWithBuckets allPeerHashes numBuckets }
        let s6 := updateDataHash p s5
        if s6.merkle.getRootHash p.b3 = expectedHash then (s6, .ok) else (s6, .err)
      | other => other

/-- syncDataFull from sync.go: with matching bucket counts diff the tree
bucket hashes against the peer, mark all rows stale, batch-request the
differing buckets, pull unknown metadata rows into the table and the
Merkle tree (blob failures swallowed), delete rows still stale with their
Merkle entries, refresh data_hash, and fail on a root mismatch — with all
of those mutations already applied. -/
def syncDataFull (p : Prims) (env : Env) (s : NodeState) (u : Update) :
    NodeState × Outcome :=
  if s.merkle.numBuckets ≠ u.numBuckets then
    rebuildTreeFromPeer p env s u.numBuckets u.dataHash
  else
    let peerTree := env.treeBucketHashesResp
    let localTree := s.merkle.getBucketHashes p.b3
    let diffIdx := (List.range localTree.length).filter
      (fun i => decide (peerTree.length ≤ i) || decide (localTree.getD i [] ≠ peerTree.getD i []))
    let s1 := { s with dataTable := markAllStaleRows s.dataTable }
    match env.dataBucketHashesResp with
    | none => (s1, .err)
    | some respList =>
      match collectBuckets (respMapOf respList) u.numBuckets diffIdx s1 with
      | (s2, none) => (s2, .panicked)
      | (s2, some (toDownload, _)) =>
        match pullMetadataSync p env toDownload s2 with
        | (s3, .ok) =>
          let stale := getStaleHashes s3.dataTable
          let s4 := { s3 with merkle := stale.foldl (fun mt h => mt.delete h) s3.merkle }
          let s5 := { s4 with dataTable := deleteStaleRows s4.dataTable }
          let s6 := updateDataHash p s5
          if s6.merkle.getRootHash p.b3 = u.dataHash then (s6, .ok) else (s6, .err)
        | other => other

/-- syncData from sync.go. -/
def syncData (p : Prims) (env : Env) (s : NodeState) (u : Update) :
    NodeState × Outcome :=
  let currentHash := s.dataHashProp.getD zeros32
  if u.dataHash = currentHash then (s, .ok)
  else if u.prevDataHash = currentHash ∧ u.updateDataType = "DATA" then
    applyDataUpdate p env s u.updateData
  else syncDataFull p env s u

/-- processUpdate from sync.go: verify the signature, parse, drop stale
ids, sync the peer list then the data, and only after both succeed commit
the node properties, the latest-update record and the log row. No step is
wrapped in a transaction spanning the sync calls. -/
def processUpdate (p : Prims) (env : Env) (s : NodeState) (su : SignedUpdate) :
    NodeState × Outcome :=
  if !(p.verify s.masterPublicKey su.updateBytes su.signature) then (s, .err)
  else
    match p.parseUpdate su.updateBytes with
    | none => (s, .err)
    | some u =>
      let currentID := s.currentUpdateID.getD 0
      if u.updateID ≤ currentID then (s, .ok)
      else
        match syncPeerList p env s u with
        | (s1, .ok) =>
          (match syncData p env s1 u with
          | (s2, .ok) =>
            ({ s2 with currentUpdateID := some u.updateID,
                       peerListHashProp := some u.peerListHash,
                       dataHashProp := some u.dataHash,
                       latestUpdate := some su,
                       updatesLog := insertLog s2.updatesLog u.updateID su }, .ok)
          | (s2, r) => (s2, r))
        | (s1, r) => (s1, r)

/-- The update value PublishDataUpdate constructs, together with the node
state after the local application: previous ids and hashes are read first,
the action is applied to table and tree (an unknown action applies
nothing), data_hash is refreshed from the root, and the update carries the
unchanged peer-list hash on both peer fields and the new root as
data_hash. -/
def buildDataUpdate (p : Prims) (now : Int) (s : NodeState) (action : String)
    (key : Bytes) (value : Option Bytes) (size : Int) (hash : Bytes) :
    NodeState × Update :=
  let currentID := s.currentUpdateID.getD 0
  let prevDataHash := s.dataHashProp.getD zeros32
  let prevPeerHash := s.peerListHashProp.getD zeros32
  let s1 :=
    if action = "ADD" ∨ action = "MODIFY" then insertData s key value size hash
    else if action = "DELETE" then deleteData s key hash
    else s
  let s2 := updateDataHash p s1
  let newDataHash := s2.merkle.getRootHash p.b3
  (s2,
   { updateID := (currentID + 1) % 2 ^ 64,
     peerListHash := prevPeerHash, prevPeerListHash := prevPeerHash,
     dataHash := newDataHash, prevDataHash := prevDataHash,
     numBuckets := s2.merkle.numBuckets,
     updateDataType := "DATA",
     updateData := .dataU { action := action, key := key, value := value,
                            size := size, hash := hash },
     timestamp := now })

/-- PublishDataUpdate from peer.go: replicas without the master private
key get an immediate error before any read or mutation; masters apply the
action locally, sign the update, append it to the log, advance the node
properties (including the misspelled lastest_update key) and broadcast the
signed update. -/
def publishDataUpdate (p : Prims) (now : Int) (s : NodeState) (action : String)
    (key : Bytes) (value : Option Bytes) (size : Int) (hash : Bytes) :
    NodeState × Outcome × Option SignedUpdate :=
  match s.masterPrivateKey with
  | none => (s, .err, none)
  | some priv =>
    let su := buildDataUpdate p now s action key value size hash
    let s2 := su.1
    let u := su.2
    let sig : SignedUpdate :=
      { updateBytes := p.marshalUpdate u, signature := p.sign priv (p.marshalUpdate u) }
    let s3 := { s2 with updatesLog := insertLog s2.updatesLog u.updateID sig,
                        currentUpdateID := some u.updateID,
                        dataHashProp := some u.dataHash,
                        lastestUpdate := some sig }
    (s3, .ok, some sig)

/-- The update value PublishPeerUpdate constructs: the new peer-list hash
is computed from the already mutated peers table, data hashes stay on both
fields, and NumBuckets is left at its zero value. -/
def buildPeerUpdate (p : Prims) (now : Int) (s : NodeState) (action peerID : String)
    (addrs : List String) : Update :=
  let currentID := s.currentUpdateID.getD 0
  let prevPeerHash := s.peerListHashProp.getD zeros32
  let prevDataHash := s.dataHashProp.getD zeros32
  let newPeerHash := computePeerListHash p.b3 (getAllPeerIDs s)
  { updateID := (currentID + 1) % 2 ^ 64,
    peerListHash := newPeerHash, prevPeerListHash := prevPeerHash,
    dataHash := prevDataHash, prevDataHash := prevDataHash,
    numBuckets := 0,
    updateDataType := "PEER",
    updateData := .peerU { action := action, peerID := peerID, addresses := addrs },
    timestamp := now }

/-- PublishPeerUpdate from peer.go: unlike PublishDataUpdate it has no
master-key guard, so on a replica SignUpdate reaches ed25519.Sign with a
nil private key, which panics on the length check. On a master the signed
update is logged, the id and peer-list hash properties advance, and the
update is broadcast. -/
def publishPeerUpdate (p : Prims) (now : Int) (s : NodeState) (action peerID : String)
    (addrs : List String) : NodeState × Outcome × Option SignedUpdate :=
  let u := buildPeerUpdate p now s action peerID addrs
  match s.masterPrivateKey with
  | none => (s, .panicked, none)
  | some priv =>
    let sig : SignedUpdate :=
      { updateBytes := p.marshalUpdate u, signature := p.sign priv (p.marshalUpdate u) }
    let s2 := { s with updatesLog := insertLog s.updatesLog u.updateID sig,
                       currentUpdateID := some u.updateID,
                       peerListHashProp := some u.peerListHash }
    (s2, .ok, some sig)

/-- The quadruple of persistent fields that only the final commit of
processUpdate (or a publish) writes: current_update_id, the update log,
the latest-update record and the peer_list_hash property. -/
def metaEq (a b : NodeState) : Prop :=
  a.currentUpdateID = b.currentUpdateID ∧ a.updatesLog = b.updatesLog ∧
  a.latestUpdate = b.latestUpdate ∧ a.peerListHashProp = b.peerListHashProp

theorem metaEq_refl (s : NodeState) : metaEq s s := ⟨rfl, rfl, rfl, rfl⟩

theorem metaEq_trans {a b c : NodeState} (h1 : metaEq a b) (h2 : metaEq b c) :
    metaEq a c :=
  ⟨h1.1.trans h2.1, h1.2.1.trans h2.2.1, h1.2.2.1.trans h2.2.2.1,
   h1.2.2.2.trans h2.2.2.2⟩

theorem downloadFile_meta (env : Env) (s : NodeState) (fileHash : Bytes)
    (fileSize : Int) : metaEq (downloadFile env s fileHash fileSize).1 s := by
  unfold downloadFile
  dsimp only
  repeat' split
  all_goals exact ⟨rfl, rfl, rfl, rfl⟩

theorem syncPeerListFull_meta (p : Prims) (env : Env) (s : NodeState)
    (expectedHash : Bytes) : metaEq (syncPeerListFull p env s expectedHash).1 s := by
  unfold syncPeerListFull
  dsimp only
  repeat' split
  all_goals exact ⟨rfl, rfl, rfl, rfl⟩

theorem applyPeerUpdate_meta (p : Prims) (env : Env) (s : NodeState)
    (ud : UpdateData) (expectedHash : Bytes) :
    metaEq (applyPeerUpdate p env s ud expectedHash).1 s := by
  unfold applyPeerUpdate
  dsimp only
  split
  · exact metaEq_refl s
  · next s2 heq =>
    have hs2 : metaEq s2 s := by
      split at heq
      · split at heq
        · cases heq
          exact ⟨rfl, rfl, rfl, rfl⟩
        · cases heq
          exact ⟨rfl, rfl, rfl, rfl⟩
      · split at heq
        · cases heq
          exact ⟨rfl, rfl, rfl, rfl⟩
        · cases heq
    split
    · exact hs2
    · exact metaEq_trans (syncPeerListFull_meta p env s2 expectedHash) hs2

theorem syncPeerList_meta (p : Prims) (env : Env) (s : NodeState) (u : Update) :
    metaEq (syncPeerList p env s u).1 s := by
  unfold syncPeerList
  dsimp only
  repeat' split
  all_goals
    first
    | exact ⟨rfl, rfl, rfl, rfl⟩
    | exact applyPeerUpdate_meta p env s u.updateData u.peerListHash
    | exact syncPeerListFull_meta p env s u.peerListHash

theorem applyDataUpdate_meta (p : Prims) (env : Env) (s : NodeState)
    (ud : UpdateData) : metaEq (applyDataUpdate p env s ud).1 s := by
  unfold applyDataUpdate updateDataHash insertData deleteData
  dsimp only
  repeat' split
  all_goals
    first
    | exact ⟨rfl, rfl, rfl, rfl⟩
    | exact metaEq_trans ⟨rfl, rfl, rfl, rfl⟩
        (metaEq_trans (downloadFile_meta env _ _ _) ⟨rfl, rfl, rfl, rfl⟩)

theorem collectBuckets_meta (resp : Nat → List Bytes) (numBuckets : Nat)
    (idxs : List Nat) (s : NodeState) :
    metaEq (collectBuckets resp numBuckets idxs s).1 s := by
  induction idxs generalizing s with
  | nil => exact metaEq_refl s
  | cons i rest ih =>
    unfold collectBuckets
    cases dbGetBucketHashes s.dataTable i numBuckets with
    | none => exact metaEq_refl s
    | some localHashes =>
      dsimp only
      rcases hres : collectBuckets resp numBuckets rest { s with dataTable := List.foldl (fun rows h => markHashCurrentRows rows h) s.dataTable (resp i) } with ⟨s3, o⟩
      have hrec := ih { s with dataTable := List.foldl (fun rows h => markHashCurrentRows rows h) s.dataTable (resp i) }
      rw [hres] at hrec
      have hs3 : metaEq s3 s := metaEq_trans hrec ⟨rfl, rfl, rfl, rfl⟩
      cases o with
      | none => exact hs3
      | some pr =>
        rcases pr with ⟨dl, all⟩
        exact hs3

theorem foldl_metaEq {α : Type} (f : NodeState → α → NodeState)
    (h : ∀ st a, metaEq (f st a) st) :
    ∀ (l : List α) (s : NodeState), metaEq (l.foldl f s) s := by
  intro l
  induction l with
  | nil => intro s; exact metaEq_refl s
  | cons a rest ih =>
    intro s
    simp only [List.foldl_cons]
    exact metaEq_trans (ih (f s a)) (h s a)

theorem pullMetadataRebuild_meta (p : Prims) (env : Env) (toDownload : List Bytes)
    (s : NodeState) : metaEq (pullMetadataRebuild p env toDownload s).1 s := by
  unfold pullMetadataRebuild
  split
  · exact metaEq_refl s
  · split
    · exact metaEq_refl s
    · refine foldl_metaEq _ ?_ _ _
      intro st m
      dsimp only
      cases m.value with
      | none => exact ⟨rfl, rfl, rfl, rfl⟩
      | some v =>
        exact metaEq_trans (downloadFile_meta env _ v m.size) ⟨rfl, rfl, rfl, rfl⟩

theorem pullMetadataSync_meta (p : Prims) (env : Env) (toDownload : List Bytes)
    (s : NodeState) : metaEq (pullMetadataSync p env toDownload s).1 s := by
  unfold pullMetadataSync
  split
  · exact metaEq_refl s
  · split
    · exact metaEq_refl s
    · refine foldl_metaEq _ ?_ _ _
      intro st m
      dsimp only
      cases m.value with
      | none => exact ⟨rfl, rfl, rfl, rfl⟩
      | some v =>
        exact metaEq_trans (downloadFile_meta env _ v m.size) ⟨rfl, rfl, rfl, rfl⟩

theorem rebuildTreeFromPeer_meta (p : Prims) (env : Env) (s : NodeState)
    (numBuckets : Nat) (expectedHash : Bytes) :
    metaEq (rebuildTreeFromPeer p env s numBuckets expectedHash).1 s := by
  unfold rebuildTreeFromPeer
  cases env.dataBucketHashesResp with
  | none => exact metaEq_refl s
  | some respList =>
    dsimp only
    rcases hres : collectBuckets (respMapOf respList) numBuckets (List.range numBuckets) { s with dataTable := markAllStaleRows s.dataTable } with ⟨s2, o⟩
    have hcollect := collectBuckets_meta (respMapOf respList) numBuckets (List.range numBuckets) { s with dataTable := markAllStaleRows s.dataTable }
    rw [hres] at hcollect
    have hs2 : metaEq s2 s := metaEq_trans hcollect ⟨rfl, rfl, rfl, rfl⟩
    cases o with
    | none => exact hs2
    | some pr =>
      rcases pr with ⟨toDownload, allPeerHashes⟩
      dsimp only
      rcases hp : pullMetadataRebuild p env toDownload s2 with ⟨s3, r⟩
      have hpull := pullMetadataRebuild_meta p env toDownload s2
      rw [hp] at hpull
      have hs3 : metaEq s3 s := metaEq_trans hpull hs2
      cases r with
      | ok =>
        dsimp only
        split
        · exact metaEq_trans ⟨rfl, rfl, rfl, rfl⟩ hs3
        · exact metaEq_trans ⟨rfl, rfl, rfl, rfl⟩ hs3
      | err => exact hs3
      | panicked => exact hs3

theorem syncDataFull_meta (p : Prims) (env : Env) (s : NodeState) (u : Update) :
    metaEq (syncDataFull p env s u).1 s := by
  unfold syncDataFull
  split
  · exact rebuildTreeFromPeer_meta p env s u.numBuckets u.dataHash
  · dsimp only
    cases env.dataBucketHashesResp with
    | none => exact metaEq_refl s
    | some respList =>
      dsimp only
      rcases hres : collectBuckets (respMapOf respList) u.numBuckets ((List.range (MerkleTree.getBucketHashes p.b3 s.merkle).length).filter (fun i => decide (env.treeBucketHashesResp.length ≤ i) || decide (List.getD (MerkleTree.getBucketHashes p.b3 s.merkle) i [] ≠ List.getD env.treeBucketHashesResp i []))) { s with dataTable := markAllStaleRows s.dataTable } with ⟨s2, o⟩
      have hcollect := collectBuckets_meta (respMapOf respList) u.numBuckets ((List.range (MerkleTree.getBucketHashes p.b3 s.merkle).length).filter (fun i => decide (env.treeBucketHashesResp.length ≤ i) || decide (List.getD (MerkleTree.getBucketHashes p.b3 s.merkle) i [] ≠ List.getD env.treeBucketHashesResp i []))) { s with dataTable := markAllStaleRows s.dataTable }
      rw [hres] at hcollect
      have hs2 : metaEq s2 s := metaEq_trans hcollect ⟨rfl, rfl, rfl, rfl⟩
      cases o with
      | none => exact hs2
      | some pr =>
        rcases pr with ⟨toDownload, restPair⟩
        dsimp only
        rcases hp : pullMetadataSync p env toDownload s2 with ⟨s3, r⟩
        have hpull := pullMetadataSync_meta p env toDownload s2
        rw [hp] at hpull
        have hs3 : metaEq s3 s := metaEq_trans hpull hs2
        cases r with
        | ok =>
          dsimp only
          split
          · exact metaEq_trans ⟨rfl, rfl, rfl, rfl⟩ hs3
          · exact metaEq_trans ⟨rfl, rfl, rfl, rfl⟩ hs3
        | err => exact hs3
        | panicked => exact hs3

theorem syncData_meta (p : Prims) (env : Env) (s : NodeState) (u : Update) :
    metaEq (syncData p env s u).1 s := by
  unfold syncData
  dsimp only
  split
  · exact metaEq_refl s
  · split
    · exact applyDataUpdate_meta p env s u.updateData
    · exact syncDataFull_meta p env s u


theorem processUpdate_fail_meta (p : Prims) (env : Env) (s : NodeState)
    (su : SignedUpdate) (hr : (processUpdate p env s su).2 ≠ .ok) :
    metaEq (processUpdate p env s su).1 s := by
  unfold processUpdate at hr ⊢
  cases hv : p.verify s.masterPublicKey su.updateBytes su.signature with
  | false =>
    simp only [hv, Bool.not_false, if_true]
    exact metaEq_refl s
  | true =>
    simp only [hv, Bool.not_true, Bool.false_eq_true, if_false] at hr ⊢
    cases hp : p.parseUpdate su.updateBytes with
    | none =>
      simp only [hp]
      exact metaEq_refl s
    | some u =>
      simp only [hp] at hr ⊢
      by_cases hle : u.updateID ≤ s.currentUpdateID.getD 0
      · simp only [if_pos hle]
        exact metaEq_refl s
      · simp only [if_neg hle] at hr ⊢
        rcases hsp : syncPeerList p env s u with ⟨s1, r1⟩
        have hm1 := syncPeerList_meta p env s u
        rw [hsp] at hm1
        simp only [hsp] at hr ⊢
        cases r1 with
        | ok =>
          rcases hsd : syncData p env s1 u with ⟨s2, r2⟩
          have hm2 := syncData_meta p env s1 u
          rw [hsd] at hm2
          simp only [hsd] at hr ⊢
          cases r2 with
          | ok => simp at hr
          | err => exact metaEq_trans hm2 hm1
          | panicked => exact metaEq_trans hm2 hm1
        | err => exact hm1
        | panicked => exact hm1

theorem processUpdate_drop (p : Prims) (env : Env) (s : NodeState)
    (su : SignedUpdate) (u : Update)
    (hv : p.verify s.masterPublicKey su.updateBytes su.signature = true)
    (hp : p.parseUpdate su.updateBytes = some u)
    (hle : u.updateID ≤ s.currentUpdateID.getD 0) :
    processUpdate p env s su = (s, .ok) := by
  unfold processUpdate
  simp only [hv, Bool.not_true, Bool.false_eq_true, if_false, hp, if_pos hle]

theorem processUpdate_monotone (p : Prims) (env : Env) (s : NodeState)
    (su : SignedUpdate) :
    s.currentUpdateID.getD 0 ≤ (processUpdate p env s su).1.currentUpdateID.getD 0 := by
  by_cases hr : (processUpdate p env s su).2 = .ok
  · unfold processUpdate at hr ⊢
    cases hv : p.verify s.masterPublicKey su.updateBytes su.signature with
    | false => simp [hv]
    | true =>
      simp only [hv, Bool.not_true, Bool.false_eq_true, if_false] at hr ⊢
      cases hp : p.parseUpdate su.updateBytes with
      | none => simp [hp]
      | some u =>
        simp only [hp] at hr ⊢
        by_cases hle : u.updateID ≤ s.currentUpdateID.getD 0
        · simp [if_pos hle]
        · simp only [if_neg hle] at hr ⊢
          rcases hsp : syncPeerList p env s u with ⟨s1, r1⟩
          have hm1 := syncPeerList_meta p env s u
          rw [hsp] at hm1
          simp only [hsp] at hr ⊢
          cases r1 with
          | ok =>
            rcases hsd : syncData p env s1 u with ⟨s2, r2⟩
            have hm2 := syncData_meta p env s1 u
            rw [hsd] at hm2
            simp only [hsd] at hr ⊢
            have h2 : s2.currentUpdateID = s1.currentUpdateID := hm2.1
            have h1 : s1.currentUpdateID = s.currentUpdateID := hm1.1
            cases r2 with
            | ok =>
              dsimp only
              simp only [Option.getD_some]
              omega
            | err =>
              dsimp only
              rw [h2, h1]
            | panicked =>
              dsimp only
              rw [h2, h1]
          | err =>
            have h1 : s1.currentUpdateID = s.currentUpdateID := hm1.1
            dsimp only
            rw [h1]
          | panicked =>
            have h1 : s1.currentUpdateID = s.currentUpdateID := hm1.1
            dsimp only
            rw [h1]
  · have := (processUpdate_fail_meta p env s su hr).1
    rw [this]

/-- A constant stand-in for BLAKE3 used by the concrete C1 scenario. -/
def b3c1 : Bytes → Bytes := fun _ => [7]

/-- The concrete PEER update of the C1 scenario: its peer-list hash matches
neither the local state nor anything the peer can provide. -/
def uC1 : Update :=
  { updateID := 1, peerListHash := [1], prevPeerListHash := [9],
    dataHash := zeros32, prevDataHash := zeros32, numBuckets := 1,
    updateDataType := "PEER",
    updateData := .peerU { action := "ADD", peerID := "B", addresses := [] },
    timestamp := 0 }

/-- Concrete primitives for the C1 scenario: the signature verifies and the
bytes parse to uC1, matching a genuinely signed update whose content the
local node cannot reproduce. -/
def pc1 : Prims :=
  { b3 := b3c1, verify := fun _ _ _ => true, sign := fun _ m => m,
    parseUpdate := fun _ => some uC1, marshalUpdate := fun _ => [],
    maValid := fun _ => true, pidStr := fun x => x }

/-- A fresh replica state knowing peer A, for the C1 scenario. -/
def sC1 : NodeState :=
  { masterPublicKey := [0], masterPrivateKey := none, hasStorage := false,
    currentUpdateID := some 0, dataHashProp := some zeros32,
    peerListHashProp := some zeros32, latestUpdate := none, lastestUpdate := none,
    dataTable := [], peersTable := [("A", "")], updatesLog := [],
    merkle := newMerkleTreeWithBuckets [] 1 }

/-- The remote peer answers the full peer-list request with peer B only. -/
def envC1 : Env :=
  { peerListResp := some [("B", [])], treeBucketHashesResp := [],
    dataBucketHashesResp := none, metadataResp := none,
    fileServe := fun _ => 0, blobValid := fun _ => false }

def suC1 : SignedUpdate := { updateBytes := [], signature := [] }

/-- The concrete DATA update of the second C1 scenario: it forces the full
data sync (prev_data_hash matches nothing local) and carries a data_hash
the local tree cannot produce, so the final root check fails. -/
def uC1b : Update :=
  { updateID := 1, peerListHash := zeros32, prevPeerListHash := zeros32,
    dataHash := [9, 9], prevDataHash := [8], numBuckets := 1,
    updateDataType := "DATA",
    updateData := .dataU { action := "ADD", key := [1], value := none,
                           size := 0, hash := [5] },
    timestamp := 0 }

/-- Concrete primitives for the second C1 scenario. -/
def pc1b : Prims :=
  { b3 := b3c1, verify := fun _ _ _ => true, sign := fun _ m => m,
    parseUpdate := fun _ => some uC1b, marshalUpdate := fun _ => [],
    maValid := fun _ => true, pidStr := fun x => x }

/-- A replica whose stored data_hash property is [3], for the second C1
scenario. -/
def sC1b : NodeState :=
  { masterPublicKey := [0], masterPrivateKey := none, hasStorage := false,
    currentUpdateID := some 0, dataHashProp := some [3],
    peerListHashProp := some zeros32, latestUpdate := none, lastestUpdate := none,
    dataTable := [], peersTable := [], updatesLog := [],
    merkle := newMerkleTreeWithBuckets [] 1 }

/-- The remote peer of the second C1 scenario answers the tree-bucket and
data-bucket requests with empty buckets, so the full sync completes its
mutations and then fails only on the final root comparison. -/
def envC1b : Env :=
  { peerListResp := none, treeBucketHashesResp := [],
    dataBucketHashesResp := some [], metadataResp := none,
    fileServe := fun _ => 0, blobValid := fun _ => false }

/-- Claim C1 counterexample, two failing scenarios. First, a validly
signed update whose peer-list full sync fails on the hash check leaves
processUpdate with an error AND a mutated peers table — ReplaceAllPeers
committed before the check — so the persistent state is not left as it was
before the call. Second, a validly signed DATA update whose full data sync
fails on the final root check leaves processUpdate with an error AND a
changed data_hash property — updateDataHash runs before the root check —
so even the node properties are not all preserved on failure. -/
theorem c1_counterexample :
    (processUpdate pc1 envC1 sC1 suC1).2 = .err ∧
    (processUpdate pc1 envC1 sC1 suC1).1.peersTable = [("B", "")] ∧
    sC1.peersTable = [("A", "")] ∧
    (processUpdate pc1 envC1 sC1 suC1).1.peersTable ≠ sC1.peersTable ∧
    (processUpdate pc1b envC1b sC1b suC1).2 = .err ∧
    (processUpdate pc1b envC1b sC1b suC1).1.dataHashProp = some zeros32 ∧
    sC1b.dataHashProp = some [3] ∧
    (processUpdate pc1b envC1b sC1b suC1).1.dataHashProp ≠ sC1b.dataHashProp := by
  refine ⟨by decide, by decide, by decide, by decide, by decide, by decide,
    by decide, by decide⟩

/-- Claim C1 (amended): when processUpdate fails at any step, the fields
written only by the final commit — current_update_id, the update log, the
latest-update record and the peer_list_hash property — are left exactly as
before the call; mutations made inside the peer-list or data sync (peers
table, data table, Merkle tree, and the data_hash property the sync path
refreshes) can survive the failure, as the counterexample shows. -/
theorem c1_failed_update_keeps_commit_fields (p : Prims) (env : Env)
    (s : NodeState) (su : SignedUpdate) (s' : NodeState) (r : Outcome)
    (h : processUpdate p env s su = (s', r)) (hr : r ≠ .ok) :
    s'.currentUpdateID = s.currentUpdateID ∧ s'.updatesLog = s.updatesLog ∧
    s'.latestUpdate = s.latestUpdate ∧ s'.peerListHashProp = s.peerListHashProp := by
  have hm := processUpdate_fail_meta p env s su (by rw [h]; exact hr)
  rw [h] at hm
  exact hm

/-- Witness for the amended C1 at the concrete failing scenario. -/
theorem c1_witness :
    (processUpdate pc1 envC1 sC1 suC1).1.currentUpdateID = sC1.currentUpdateID ∧
    (processUpdate pc1 envC1 sC1 suC1).1.updatesLog = sC1.updatesLog ∧
    (processUpdate pc1 envC1 sC1 suC1).1.latestUpdate = sC1.latestUpdate ∧
    (processUpdate pc1 envC1 sC1 suC1).1.peerListHashProp = sC1.peerListHashProp :=
  c1_failed_update_keeps_commit_fields pc1 envC1 sC1 suC1
    (processUpdate pc1 envC1 sC1 suC1).1 (processUpdate pc1 envC1 sC1 suC1).2
    rfl (by decide)

/-- The stale DATA update of the C9 scenario. -/
def uC9 : Update :=
  { updateID := 1, peerListHash := zeros32, prevPeerListHash := zeros32,
    dataHash := zeros32, prevDataHash := zeros32, numBuckets := 1,
    updateDataType := "DATA",
    updateData := .dataU { action := "ADD", key := [1], value := none,
                           size := 0, hash := [5] },
    timestamp := 0 }

/-- Concrete primitives for the C9 drop scenario (valid signature). -/
def pc9 : Prims :=
  { b3 := fun _ => [7], verify := fun _ _ _ => true, sign := fun _ m => m,
    parseUpdate := fun _ => some uC9, marshalUpdate := fun _ => [],
    maValid := fun _ => true, pidStr := fun x => x }

/-- Concrete primitives for the C9 counterexample: the signature check
fails (a forged or corrupted signature on a parseable stale update). -/
def pc9b : Prims :=
  { b3 := fun _ => [7], verify := fun _ _ _ => false, sign := fun _ m => m,
    parseUpdate := fun _ => some uC9, marshalUpdate := fun _ => [],
    maValid := fun _ => true, pidStr := fun x => x }

/-- A node that has already processed update 5, for the C9 scenario. -/
def sC9 : NodeState :=
  { masterPublicKey := [0], masterPrivateKey := none, hasStorage := false,
    currentUpdateID := some 5, dataHashProp := some zeros32,
    peerListHashProp := some zeros32, latestUpdate := none, lastestUpdate := none,
    dataTable := [], peersTable := [], updatesLog := [],
    merkle := newMerkleTreeWithBuckets [] 1 }

def envC9 : Env :=
  { peerListResp := none, treeBucketHashesResp := [],
    dataBucketHashesResp := none, metadataResp := none,
    fileServe := fun _ => 0, blobValid := fun _ => false }

def suC9 : SignedUpdate := { updateBytes := [], signature := [] }

/-- Claim C9 counterexample: a received signed update with update_id 1 at
current_update_id 5 is rejected with an error, not dropped silently, when
its signature does not verify — the signature check precedes the ordering
check — so not every stale update returns without error. -/
theorem c9_counterexample :
    pc9b.parseUpdate suC9.updateBytes = some uC9 ∧
    uC9.updateID ≤ sC9.currentUpdateID.getD 0 ∧
    (processUpdate pc9b envC9 sC9 suC9).2 = .err := by
  refine ⟨by decide, by decide, by decide⟩

/-- Claim C9 (amended): every validly signed, parseable update whose id is
at most current_update_id is dropped with no error and no state change at
all, and across every processUpdate call — whatever its outcome —
current_update_id never decreases; an invalid signature on a stale update
yields an error instead of the silent drop (see the counterexample),
still without a state change. -/
theorem c9_stale_updates_dropped_and_monotone (p : Prims) (env : Env)
    (s : NodeState) (su : SignedUpdate) :
    (∀ u, p.verify s.masterPublicKey su.updateBytes su.signature = true →
      p.parseUpdate su.updateBytes = some u →
      u.updateID ≤ s.currentUpdateID.getD 0 →
      processUpdate p env s su = (s, .ok)) ∧
    s.currentUpdateID.getD 0 ≤ (processUpdate p env s su).1.currentUpdateID.getD 0 :=
  ⟨fun u hv hp hle => processUpdate_drop p env s su u hv hp hle,
   processUpdate_monotone p env s su⟩

/-- Witness for the amended C9: the stale update is dropped silently with
the state unchanged, at the concrete scenario. -/
theorem c9_witness :
    processUpdate pc9 envC9 sC9 suC9 = (sC9, .ok) :=
  (c9_stale_updates_dropped_and_monotone pc9 envC9 sC9 suC9).1 uC9 rfl rfl (by decide)

theorem downloadFile_tree (env : Env) (s : NodeState) (fileHash : Bytes)
    (fileSize : Int) :
    (downloadFile env s fileHash fileSize).1.merkle = s.merkle ∧
    (downloadFile env s fileHash fileSize).1.dataHashProp = s.dataHashProp := by
  unfold downloadFile
  dsimp only
  repeat' split
  all_goals exact ⟨rfl, rfl⟩

/-- Claim C2 (amended): on the replica data fast-forward path (kind DATA,
prev_data_hash matching the local data hash, a known action) the node
applies the single action to table and tree and refreshes the data_hash
property from the local Merkle root, returning success; it never compares
that root against update.data_hash and never falls through to the full
sync on this path, whatever the root turns out to be. -/
theorem c2_fast_forward_applies_without_root_check (p : Prims) (env : Env)
    (s : NodeState) (u : Update) (du : DataUpdate)
    (hne : u.dataHash ≠ s.dataHashProp.getD zeros32)
    (hprev : u.prevDataHash = s.dataHashProp.getD zeros32)
    (hkind : u.updateDataType = "DATA")
    (hdu : u.updateData = .dataU du)
    (haction : du.action = "ADD" ∨ du.action = "MODIFY" ∨ du.action = "DELETE") :
    (syncData p env s u).2 = .ok ∧
    (syncData p env s u).1.merkle =
      (if du.action = "DELETE" then s.merkle.delete du.hash
       else s.merkle.insert du.hash) ∧
    (syncData p env s u).1.dataHashProp =
      some (MerkleTree.getRootHash p.b3 (syncData p env s u).1.merkle) := by
  unfold syncData
  dsimp only
  rw [if_neg hne, if_pos (And.intro hprev hkind)]
  unfold applyDataUpdate
  rw [hdu]
  dsimp only [toDataUpdate]
  rcases haction with h | h | h
  · rw [h]
    rw [if_pos (by decide : ("ADD" : String) = "ADD" ∨ ("ADD" : String) = "MODIFY")]
    cases hval : du.value with
    | none =>
      refine ⟨rfl, ?_, ?_⟩
      · rw [if_neg (by decide : ¬ ("ADD" : String) = "DELETE")]
        rfl
      · rfl
    | some v =>
      simp only [hval]
      dsimp only [updateDataHash]
      have hdl := downloadFile_tree env (insertData s du.key (some v) du.size du.hash) v du.size
      refine ⟨trivial, ?_, rfl⟩
      rw [if_neg (by decide : ¬ ("ADD" : String) = "DELETE")]
      exact hdl.1
  · rw [h]
    rw [if_pos (by decide : ("MODIFY" : String) = "ADD" ∨ ("MODIFY" : String) = "MODIFY")]
    cases hval : du.value with
    | none =>
      refine ⟨rfl, ?_, ?_⟩
      · rw [if_neg (by decide : ¬ ("MODIFY" : String) = "DELETE")]
        rfl
      · rfl
    | some v =>
      simp only [hval]
      dsimp only [updateDataHash]
      have hdl := downloadFile_tree env (insertData s du.key (some v) du.size du.hash) v du.size
      refine ⟨trivial, ?_, rfl⟩
      rw [if_neg (by decide : ¬ ("MODIFY" : String) = "DELETE")]
      exact hdl.1
  · rw [h]
    rw [if_neg (by decide : ¬ (("DELETE" : String) = "ADD" ∨ ("DELETE" : String) = "MODIFY"))]
    rw [if_pos (rfl : ("DELETE" : String) = "DELETE")]
    refine ⟨rfl, ?_, rfl⟩
    rw [if_pos (rfl : ("DELETE" : String) = "DELETE")]
    rfl

/-- The concrete DATA update of the C2 scenario: a fast-forward ADD whose
claimed data_hash [9, 9] cannot match the locally recomputed root. -/
def uC2 : Update :=
  { updateID := 1, peerListHash := zeros32, prevPeerListHash := zeros32,
    dataHash := [9, 9], prevDataHash := zeros32, numBuckets := 1,
    updateDataType := "DATA",
    updateData := .dataU { action := "ADD", key := [1], value := none,
                           size := 0, hash := [5] },
    timestamp := 0 }

/-- Concrete primitives for the C2 scenario. -/
def pc2 : Prims :=
  { b3 := fun _ => [7], verify := fun _ _ _ => true, sign := fun _ m => m,
    parseUpdate := fun _ => some uC2, marshalUpdate := fun _ => [],
    maValid := fun _ => true, pidStr := fun x => x }

/-- A fresh replica for the C2 scenario. -/
def sC2 : NodeState :=
  { masterPublicKey := [0], masterPrivateKey := none, hasStorage := false,
    currentUpdateID := some 0, dataHashProp := some zeros32,
    peerListHashProp := some zeros32, latestUpdate := none, lastestUpdate := none,
    dataTable := [], peersTable := [], updatesLog := [],
    merkle := newMerkleTreeWithBuckets [] 1 }

/-- An environment in which every full-sync request fails, so a fall
through to the Merkle-diff sync could never report success. -/
def envC2 : Env :=
  { peerListResp := none, treeBucketHashesResp := [],
    dataBucketHashesResp := none, metadataResp := none,
    fileServe := fun _ => 0, blobValid := fun _ => false }

def suC2 : SignedUpdate := { updateBytes := [], signature := [] }

/-- Claim C2 counterexample: on the data fast-forward path the action is
applied and syncData reports success although the resulting local Merkle
root differs from update.data_hash — no verification and no fall through
to the full sync happens (the environment would make any full sync fail),
and processUpdate then records update.data_hash over a diverging tree. -/
theorem c2_counterexample :
    (syncData pc2 envC2 sC2 uC2).2 = .ok ∧
    MerkleTree.getRootHash pc2.b3 (syncData pc2 envC2 sC2 uC2).1.merkle ≠ uC2.dataHash ∧
    (processUpdate pc2 envC2 sC2 suC2).2 = .ok ∧
    (processUpdate pc2 envC2 sC2 suC2).1.dataHashProp = some uC2.dataHash ∧
    MerkleTree.getRootHash pc2.b3 (processUpdate pc2 envC2 sC2 suC2).1.merkle ≠ uC2.dataHash := by
  refine ⟨by decide, by decide, by decide, by decide, by decide⟩

/-- Witness for the amended C2 at the concrete fast-forward scenario. -/
theorem c2_witness :
    (syncData pc2 envC2 sC2 uC2).2 = .ok ∧
    (syncData pc2 envC2 sC2 uC2).1.merkle =
      (if ("ADD" : String) = "DELETE" then sC2.merkle.delete [5]
       else sC2.merkle.insert [5]) ∧
    (syncData pc2 envC2 sC2 uC2).1.dataHashProp =
      some (MerkleTree.getRootHash pc2.b3 (syncData pc2 envC2 sC2 uC2).1.merkle) :=
  c2_fast_forward_applies_without_root_check pc2 envC2 sC2 uC2
    { action := "ADD", key := [1], value := none, size := 0, hash := [5] }
    (by decide) (by decide) (by decide) (by decide) (Or.inl rfl)

/-- Concrete primitives for the C3 scenario. -/
def pc3 : Prims :=
  { b3 := fun _ => [7], verify := fun _ _ _ => true, sign := fun _ m => m,
    parseUpdate := fun _ => none, marshalUpdate := fun _ => [],
    maValid := fun _ => true, pidStr := fun x => x }

/-- A master whose vault already contains the entry hash [5] and whose
data_hash property equals the current root. -/
def sC3 : NodeState :=
  { masterPublicKey := [0], masterPrivateKey := some [1], hasStorage := false,
    currentUpdateID := some 3, dataHashProp := some [7],
    peerListHashProp := some zeros32, latestUpdate := none, lastestUpdate := none,
    dataTable := [{ key := [1], value := none, size := 0, hash := [5],
                    inCurrent := true, downloadProgress := 0 }],
    peersTable := [], updatesLog := [],
    merkle := newMerkleTreeWithBuckets [[5]] 1 }

/-- Claim C3 counterexample: PublishDataUpdate on an ADD of an entry hash
already present in the Merkle tree leaves the root unchanged, so the
constructed update has data_hash equal to prev_data_hash while
peer_list_hash also equals prev_peer_list_hash — no field differs, and the
update is still published successfully, refuting that exactly one of the
two pairs differs for every published DATA update. -/
theorem c3_counterexample :
    (buildDataUpdate pc3 0 sC3 "ADD" [1] none 0 [5]).2.dataHash =
      (buildDataUpdate pc3 0 sC3 "ADD" [1] none 0 [5]).2.prevDataHash ∧
    (buildDataUpdate pc3 0 sC3 "ADD" [1] none 0 [5]).2.peerListHash =
      (buildDataUpdate pc3 0 sC3 "ADD" [1] none 0 [5]).2.prevPeerListHash ∧
    (publishDataUpdate pc3 0 sC3 "ADD" [1] none 0 [5]).2.1 = .ok := by
  refine ⟨by decide, by decide, by decide⟩

/-- Claim C3 (amended): every DATA update constructed by PublishDataUpdate
carries the unchanged peer-list hash on both peer fields (so peer_list_hash
always equals prev_peer_list_hash), has update_id equal to the previous
update id plus one (as uint64 arithmetic; the hypothesis excludes the wrap
at 2^64), and carries the post-action Merkle root as data_hash with the
stored property as prev_data_hash — but data_hash need not differ from
prev_data_hash: an ADD of an already present hash or a DELETE of an absent
one leaves the root unchanged, as the counterexample shows. -/
theorem c3_published_data_update_shape (p : Prims) (now : Int) (s : NodeState)
    (action : String) (key : Bytes) (value : Option Bytes) (size : Int)
    (hash : Bytes) (hid : s.currentUpdateID.getD 0 + 1 < 2 ^ 64) :
    (buildDataUpdate p now s action key value size hash).2.peerListHash =
      (buildDataUpdate p now s action key value size hash).2.prevPeerListHash ∧
    (buildDataUpdate p now s action key value size hash).2.updateID =
      s.currentUpdateID.getD 0 + 1 ∧
    (buildDataUpdate p now s action key value size hash).2.dataHash =
      MerkleTree.getRootHash p.b3 (buildDataUpdate p now s action key value size hash).1.merkle ∧
    (buildDataUpdate p now s action key value size hash).2.prevDataHash =
      s.dataHashProp.getD zeros32 := by
  refine ⟨rfl, ?_, rfl, rfl⟩
  show (s.currentUpdateID.getD 0 + 1) % 2 ^ 64 = s.currentUpdateID.getD 0 + 1
  exact Nat.mod_eq_of_lt hid

/-- Witness for the amended C3 at the concrete master state. -/
theorem c3_witness :
    (buildDataUpdate pc3 0 sC3 "ADD" [1] none 0 [5]).2.peerListHash =
      (buildDataUpdate pc3 0 sC3 "ADD" [1] none 0 [5]).2.prevPeerListHash ∧
    (buildDataUpdate pc3 0 sC3 "ADD" [1] none 0 [5]).2.updateID =
      sC3.currentUpdateID.getD 0 + 1 ∧
    (buildDataUpdate pc3 0 sC3 "ADD" [1] none 0 [5]).2.dataHash =
      MerkleTree.getRootHash pc3.b3 (buildDataUpdate pc3 0 sC3 "ADD" [1] none 0 [5]).1.merkle ∧
    (buildDataUpdate pc3 0 sC3 "ADD" [1] none 0 [5]).2.prevDataHash =
      sC3.dataHashProp.getD zeros32 :=
  c3_published_data_update_shape pc3 0 sC3 "ADD" [1] none 0 [5] (by decide)

/-- Concrete primitives for the C5 scenario. -/
def pc5 : Prims :=
  { b3 := fun _ => [7], verify := fun _ _ _ => true, sign := fun _ m => m,
    parseUpdate := fun _ => none, marshalUpdate := fun _ => [],
    maValid := fun _ => true, pidStr := fun x => x }

/-- A replica: no master private key. -/
def sC5 : NodeState :=
  { masterPublicKey := [0], masterPrivateKey := none, hasStorage := false,
    currentUpdateID := some 0, dataHashProp := some zeros32,
    peerListHashProp := some zeros32, latestUpdate := none, lastestUpdate := none,
    dataTable := [], peersTable := [], updatesLog := [],
    merkle := newMerkleTreeWithBuckets [] 1 }

/-- Claim C5: on a replica, PublishDataUpdate does return an immediate
error with no state mutation and no broadcast, but PublishPeerUpdate has
no master-key guard: it reaches ed25519.Sign with a nil private key, which
panics on the key-length check instead of returning the claimed immediate
error (state still unmutated, nothing broadcast). -/
theorem c5_replica_publish_behaviour :
    publishDataUpdate pc5 0 sC5 "ADD" [1] none 0 [5] = (sC5, .err, none) ∧
    publishPeerUpdate pc5 0 sC5 "ADD" "B" [] = (sC5, .panicked, none) := by
  refine ⟨by decide, by decide⟩

/-- The 32-byte all-FF hash, the largest value of the hash space. -/
def allFF : Bytes := List.replicate 32 255

/-- A stored row whose entry hash is the all-FF value. -/
def rowFF : DataRow :=
  { key := [0], value := none, size := 0, hash := allFF,
    inCurrent := true, downloadProgress := 0 }

/-- Claim C4: the bucket-range query does not agree with getBucketIndex.
For every bucket count B at least 2 the last bucket index makes
computeBucketRange encode 2^256, whose minimal big-endian form is 33
bytes, so the Go copy target slice end[32-33:] panics (modelled none) and
GetBucketHashes can never return the hashes getBucketIndex assigns to that
bucket; and for B = 1 the SQL range [00…00, FF…FF) excludes a stored
all-FF hash although getBucketIndex places it in bucket 0. -/
theorem c4_bucket_range_mismatch :
    computeBucketRange 1 2 = none ∧
    dbGetBucketHashes [rowFF] 1 2 = none ∧
    getBucketIndex allFF 2 = 1 ∧
    computeBucketRange 0 1 = some (zeros32, allFF) ∧
    dbGetBucketHashes [rowFF] 0 1 = some [] ∧
    getBucketIndex allFF 1 = 0 := by
  refine ⟨by decide, by decide, by decide, by decide, by decide, by decide⟩

end Endershare
